import Mathlib

/-!
Shallow embedding of the timeline-reconciliation core of the Dengue-Forecast
dashboard: the merge of history / pending / forecast collections into chart
rows and the compact-window selection, as implemented in the `ForecastChart`
component, together with the numeric boundary sanitizer `toNumeric` of
`DistrictDetailPanel.fetchForecast`.

Modelling choices:
* A JavaScript number is `JSNum`: a finite rational, `nan`, or a signed
  infinity.  The merge never does arithmetic on values; the only numeric
  predicate used is `Number.isFinite`.
* A calendar date is represented by the integer `new Date(s).getTime()`
  of its canonical `YYYY-MM-DD` string; distinct canonical strings parse
  to distinct times, so the map key (the string) and the sort key (the
  parsed time) are identified.
* The mutable `Map`/array passes of the source become pure list passes:
  the insertion-ordered `Map` is an association list updated in place by
  `mapUpsert`, the in-place array mutation of the manual-connector pass is
  `List.set` at explicit indices, and `forEach` over indices is a fold
  over `List.range`.
-/

namespace DengueForecast

/-- A JavaScript number: either a finite value (modelled as a rational) or
one of the non-finite values `NaN`, `Infinity`, `-Infinity`. -/
inductive JSNum where
  | num (q : ℚ)
  | nan
  | inf
  | negInf
deriving DecidableEq, Repr

/-- `Number.isFinite`. -/
def JSNum.isFinite : JSNum → Bool
  | .num _ => true
  | _ => false

/-- A calendar date, identified with the epoch time `new Date(s).getTime()`
of its canonical ISO string (see module docstring). -/
abbrev Date := Int

/-- `HistorySource` from `types/forecast.ts`. -/
inductive HistorySource where
  | observed
  | manual
  | synthetic
  | seasonal_clone
deriving DecidableEq, Repr

/-- `FillSource` from `ForecastChart`. -/
inductive FillSource where
  | synthetic
  | seasonal_clone
  | pending
deriving DecidableEq, Repr

/-- `HistoryPoint` from `types/forecast.ts`: `{ ds, y, source }`. -/
structure HistoryPoint where
  ds : Date
  y : JSNum
  source : HistorySource
deriving DecidableEq, Repr

/-- `ForecastPoint` from `types/forecast.ts`:
`{ ds, horizon, y_pred, actual?: number | null }`.  `actual := none` models
both an absent and a `null` annotation (the merge treats them alike). -/
structure ForecastPoint where
  ds : Date
  horizon : JSNum
  y_pred : JSNum
  actual : Option JSNum
deriving DecidableEq, Repr

/-- `PendingWeek` from `types/forecast.ts`: `{ ds, prediction }`. -/
structure PendingWeek where
  ds : Date
  prediction : JSNum
deriving DecidableEq, Repr

/-- The fields of `ForecastResponse` read by `ForecastChart`.  The remaining
fields (`cut_date`, coordinates, …) are never read by the merge or the
window selection and are omitted. -/
structure ForecastResponse where
  history : List HistoryPoint
  forecast : List ForecastPoint
  pending_weeks : List PendingWeek
deriving DecidableEq, Repr

/-- `ChartRow` from `ForecastChart`.  The optional boolean `isPending?` is
modelled as a `Bool` that is `false` while unset (it is only ever read
through `row.hasHistory || row.isPending`, where `undefined` is falsy). -/
structure ChartRow where
  date : Date
  actualReal : Option JSNum
  filledValue : Option JSNum
  filledLineValue : Option JSNum
  forecastValue : Option JSNum
  actualSource : Option HistorySource
  filledSource : Option FillSource
  hasHistory : Bool
  hasForecast : Bool
  isPending : Bool
  manualConnector : Option JSNum
deriving DecidableEq, Repr

/-- The fresh row inserted by `getRow` the first time a date is seen
(`ForecastChart`, lines 122–136). -/
def initRow (date : Date) : ChartRow :=
  { date := date
    actualReal := none
    filledValue := none
    filledLineValue := none
    forecastValue := none
    actualSource := none
    filledSource := none
    hasHistory := false
    hasForecast := false
    isPending := false
    manualConnector := none }

/-- `rowsMap` as an insertion-ordered association list keyed by `date`:
`mapUpsert m d f` is `getRow(d)` followed by the mutation `f` of the
returned row (`rowsMap.set` on first encounter, in-place update after). -/
def mapUpsert (m : List ChartRow) (d : Date) (f : ChartRow → ChartRow) : List ChartRow :=
  match m with
  | [] => [f (initRow d)]
  | r :: rest => if r.date = d then f r :: rest else r :: mapUpsert rest d f

/-- Body of the history `forEach` (`ForecastChart`, lines 138–149). -/
def applyHistory (row : ChartRow) (point : HistoryPoint) : ChartRow :=
  let row := { row with hasHistory := true }
  if point.source = HistorySource.observed ∨ point.source = HistorySource.manual then
    { row with actualReal := some point.y, actualSource := some point.source }
  else
    { row with
        filledValue := some point.y
        filledLineValue := some point.y
        filledSource := some (match point.source with
          | HistorySource.seasonal_clone => FillSource.seasonal_clone
          | _ => FillSource.synthetic) }

/-- Body of the pending-weeks `forEach` (`ForecastChart`, lines 151–157). -/
def applyPending (row : ChartRow) (point : PendingWeek) : ChartRow :=
  { row with
      filledValue := some point.prediction
      filledLineValue := some point.prediction
      filledSource := some FillSource.pending
      isPending := true }

/-- Body of the forecast `forEach` (`ForecastChart`, lines 159–167): always
writes `hasForecast` and `forecastValue`; backfills `actualReal` only when it
is still `null` and the attached actual is a present, finite number. -/
def applyForecast (row : ChartRow) (point : ForecastPoint) : ChartRow :=
  let row := { row with hasForecast := true, forecastValue := some point.y_pred }
  match point.actual with
  | none => row
  | some a =>
      if row.actualReal = none ∧ a.isFinite then
        { row with actualReal := some a, actualSource := some HistorySource.observed }
      else row

/-- One `forEach` over a point collection: each point is routed to its
date's row via `getRow` and the field writes `app`. -/
def foldPoints {β : Type} (ds : β → Date) (app : ChartRow → β → ChartRow)
    (l : List β) (m : List ChartRow) : List ChartRow :=
  l.foldl (fun m p => mapUpsert m (ds p) (fun row => app row p)) m

/-- The fully populated `rowsMap` (values in insertion order): history, then
pending weeks, then forecast (`ForecastChart`, lines 121–167). -/
def buildRowsMap (data : ForecastResponse) : List ChartRow :=
  foldPoints (fun p => p.ds) applyForecast data.forecast
    (foldPoints (fun p => p.ds) applyPending data.pending_weeks
      (foldPoints (fun p => p.ds) applyHistory data.history []))

/-- `Array.from(rowsMap.values()).sort((a, b) => time(a.date) - time(b.date))`
(`ForecastChart`, line 169); `Array.prototype.sort` is stable, as is
`List.mergeSort`. -/
def sortRows (rows : List ChartRow) : List ChartRow :=
  rows.mergeSort (fun a b => decide (a.date ≤ b.date))

/-- `neighbor.actualReal ?? neighbor.filledValue ?? neighbor.forecastValue`
(`ForecastChart`, line 180). -/
def bestAvailable (r : ChartRow) : Option JSNum :=
  r.actualReal <|> r.filledValue <|> r.forecastValue

/-- `linkNeighbor` (`ForecastChart`, lines 175–188).  A negative or
out-of-range index models `rows[neighborIdx] === undefined`. -/
def linkNeighbor (rows : List ChartRow) (neighborIdx : Int)
    (suppressForwardFill : Bool) : List ChartRow :=
  if neighborIdx < 0 then rows
  else
    match rows[neighborIdx.toNat]? with
    | none => rows
    | some neighbor =>
      if neighbor.manualConnector.isSome then rows
      else
        match bestAvailable neighbor with
        | none => rows
        | some value =>
          let neighbor := { neighbor with manualConnector := some value }
          let neighbor :=
            if suppressForwardFill && neighbor.filledLineValue.isSome then
              { neighbor with filledLineValue := none }
            else neighbor
          rows.set neighborIdx.toNat neighbor

/-- Body of the manual-connector `forEach` at one index
(`ForecastChart`, lines 171–191). -/
def connectorStep (rows : List ChartRow) (idx : Nat) : List ChartRow :=
  match rows[idx]? with
  | none => rows
  | some row =>
    if row.actualSource = some HistorySource.manual ∧ row.actualReal.isSome then
      let rows := rows.set idx
        { row with manualConnector := row.actualReal, filledLineValue := none }
      let rows := linkNeighbor rows ((idx : Int) - 1) false
      linkNeighbor rows ((idx : Int) + 1) true
    else rows

/-- The manual-connector pass: a single left-to-right scan over the sorted
rows (`ForecastChart`, lines 171–192). -/
def connectorPass (rows : List ChartRow) : List ChartRow :=
  (List.range rows.length).foldl connectorStep rows

/-- The merged timeline rows before the manual-connector pass (the sorted
values of the fully populated `rowsMap`). -/
def mergedMapRows (data : ForecastResponse) : List ChartRow :=
  sortRows (buildRowsMap data)

/-- `allRows`: the spec's `merge(history, pending, forecast)` — map merge,
sort, manual-connector pass (`ForecastChart`, lines 120–192). -/
def mergeRows (data : ForecastResponse) : List ChartRow :=
  connectorPass (mergedMapRows data)

/-- `row.hasHistory || row.isPending` (`ForecastChart`, line 194): a row
anchored to real or provisional data. -/
def anchorRow (r : ChartRow) : Bool :=
  r.hasHistory || r.isPending

/-- `DEFAULT_HISTORY_WINDOW` (`ForecastChart`, line 52). -/
def DEFAULT_HISTORY_WINDOW : Nat := 15

/-- `DEFAULT_FORECAST_WINDOW` (`ForecastChart`, line 53). -/
def DEFAULT_FORECAST_WINDOW : Nat := 2

/-- The compact candidate `[...compactBase, ...forecastTail]` computed when
the anchor subset is the non-empty `t :: ts`
(`ForecastChart`, lines 199–222).  `List.getD i t` models
`timelineRows[timelineRows.length - historyWindow].date`: under the
contract `historyWindow > 0` the index is in range, so the default is
never consulted (with `historyWindow = 0` the JavaScript would read
`undefined.date` and throw). -/
def selectWindowCompact (rows : List ChartRow) (historyWindow forecastWindow : Nat)
    (t : ChartRow) (ts : List ChartRow) : List ChartRow :=
  let timelineRows := t :: ts
  let lastTimelineDate := (timelineRows.getLast (List.cons_ne_nil t ts)).date
  let windowStartTimeline :=
    if timelineRows.length > historyWindow then
      (timelineRows.getD (timelineRows.length - historyWindow) t).date
    else t.date
  let windowStartTime := windowStartTimeline
  let windowEndTime := lastTimelineDate
  let compactBase := rows.filter fun r =>
    decide (windowStartTime ≤ r.date) && decide (r.date ≤ windowEndTime)
  let forecastTail := (rows.foldl
    (fun (acc : Nat × List ChartRow) r =>
      if windowEndTime < r.date ∧ r.forecastValue.isSome ∧ acc.1 < forecastWindow then
        (acc.1 + 1, acc.2 ++ [r])
      else acc)
    (0, [])).2
  compactBase ++ forecastTail

/-- The spec's `selectWindow(rows, historyWindow, forecastWindow)`: the
`compactRows` derivation of `ForecastChart` (lines 194–223), operating on
the merged rows. -/
def selectWindow (rows : List ChartRow) (historyWindow forecastWindow : Nat) :
    List ChartRow :=
  match rows.filter anchorRow with
  | [] => rows
  | t :: ts =>
    let compact := selectWindowCompact rows historyWindow forecastWindow t ts
    if compact.isEmpty then rows else compact

/-- An upstream JSON field value as classified by `toNumeric`
(`DistrictDetailPanel`, lines 237–243).  A string or other non-number
carries the `JSNum` its `Number(…)` conversion would produce; only the
`typeof` class and that conversion are ever consulted. -/
inductive JSValue where
  | num (n : JSNum)
  | str (numberOf : JSNum)
  | nullv
  | undef
  | other (numberOf : JSNum)
deriving DecidableEq, Repr

/-- `toNumeric` (`DistrictDetailPanel`, lines 237–243): parse strings with
`Number`, pass numbers through, and return the result only when it is a
finite number; everything else becomes `null`. -/
def toNumeric : JSValue → Option JSNum
  | .num n => if n.isFinite then some n else none
  | .str p => if p.isFinite then some p else none
  | _ => none

/-- `v ?? d` for a raw field. -/
def jsNullish (v d : JSValue) : JSValue :=
  match v with
  | .nullv => d
  | .undef => d
  | _ => v

/-- `Number(v)`. -/
def jsNumberOf : JSValue → JSNum
  | .num n => n
  | .str p => p
  | .nullv => .num 0
  | .undef => .nan
  | .other p => p

/-- A raw `history` entry as received from the API:
`{ ds, cases, source? }`. -/
structure RawHistoryItem where
  ds : Date
  cases : JSValue
  source : Option HistorySource
deriving DecidableEq, Repr

/-- A raw `forecast` entry as received from the API:
`{ ds, h, prediction, actual? }`. -/
structure RawForecastItem where
  ds : Date
  h : JSValue
  prediction : JSValue
  actual : JSValue
deriving DecidableEq, Repr

/-- A raw `pending_weeks` entry as received from the API. -/
structure RawPendingItem where
  ds : Date
  prediction : JSValue
deriving DecidableEq, Repr

/-- The raw API response fields feeding the chart; `none` models a missing
or non-array field (the `Array.isArray` guards). -/
structure RawResponse where
  history : Option (List RawHistoryItem)
  forecast : Option (List RawForecastItem)
  pending_weeks : Option (List RawPendingItem)
deriving DecidableEq, Repr

/-- One history entry of the `transformed` response
(`DistrictDetailPanel`, lines 250–256). -/
def transformHistoryItem (item : RawHistoryItem) : HistoryPoint :=
  { ds := item.ds
    y := (toNumeric item.cases).getD (.num 0)
    source := item.source.getD HistorySource.observed }

/-- One forecast entry of the `transformed` response
(`DistrictDetailPanel`, lines 257–264). -/
def transformForecastItem (item : RawForecastItem) : ForecastPoint :=
  { ds := item.ds
    horizon := jsNumberOf (jsNullish item.h (.num (.num 0)))
    y_pred := (toNumeric item.prediction).getD (.num 0)
    actual := toNumeric item.actual }

/-- One pending entry of the `transformed` response
(`DistrictDetailPanel`, lines 265–270). -/
def transformPendingItem (item : RawPendingItem) : PendingWeek :=
  { ds := item.ds
    prediction := (toNumeric item.prediction).getD (.num 0) }

/-- The boundary transform of `fetchForecast`
(`DistrictDetailPanel`, lines 244–275), restricted to the fields the chart
reads. -/
def transformResponse (raw : RawResponse) : ForecastResponse :=
  { history := (raw.history.getD []).map transformHistoryItem
    forecast := (raw.forecast.getD []).map transformForecastItem
    pending_weeks := (raw.pending_weeks.getD []).map transformPendingItem }

/-! ### Basic facts about the per-point writes -/

theorem date_initRow (d : Date) : (initRow d).date = d := rfl

theorem date_applyHistory (row : ChartRow) (p : HistoryPoint) :
    (applyHistory row p).date = row.date := by
  unfold applyHistory
  split <;> rfl

theorem date_applyPending (row : ChartRow) (p : PendingWeek) :
    (applyPending row p).date = row.date := rfl

theorem date_applyForecast (row : ChartRow) (p : ForecastPoint) :
    (applyForecast row p).date = row.date := by
  unfold applyForecast
  rcases p.actual with _ | a
  · rfl
  · dsimp only
    split <;> rfl

/-! ### Association-list lemmas for `mapUpsert` -/

theorem map_date_mapUpsert (m : List ChartRow) (d : Date) (f : ChartRow → ChartRow)
    (hf : ∀ r, (f r).date = r.date) :
    (mapUpsert m d f).map (fun r => r.date) =
      if d ∈ m.map (fun r => r.date) then m.map (fun r => r.date)
      else m.map (fun r => r.date) ++ [d] := by
  induction m with
  | nil => simp [mapUpsert, hf, date_initRow]
  | cons r rest ih =>
    by_cases hd : r.date = d
    · simp [mapUpsert, hd, hf]
    · simp only [mapUpsert, if_neg hd, List.map_cons, ih]
      have : (d ∈ r.date :: rest.map (fun r => r.date)) ↔ d ∈ rest.map (fun r => r.date) := by
        simp [eq_comm, hd, Ne.symm]
        intro h
        exact absurd h.symm hd
      by_cases hmem : d ∈ rest.map (fun r => r.date) <;>
        simp [hmem, this]

theorem find?_mapUpsert_self (m : List ChartRow) (d : Date) (f : ChartRow → ChartRow)
    (hf : ∀ r, (f r).date = r.date) :
    (mapUpsert m d f).find? (fun r => decide (r.date = d)) =
      some (f (((m.find? (fun r => decide (r.date = d))).getD (initRow d)))) := by
  induction m with
  | nil => simp [mapUpsert, List.find?, hf, date_initRow]
  | cons r rest ih =>
    by_cases hd : r.date = d
    · simp [mapUpsert, hd, List.find?, hf]
    · simp [mapUpsert, hd, List.find?_cons, ih]

theorem find?_mapUpsert_ne (m : List ChartRow) (d k : Date) (f : ChartRow → ChartRow)
    (hf : ∀ r, (f r).date = r.date) (hk : k ≠ d) :
    (mapUpsert m d f).find? (fun r => decide (r.date = k)) =
      m.find? (fun r => decide (r.date = k)) := by
  induction m with
  | nil => simp [mapUpsert, List.find?, hf, date_initRow, Ne.symm hk]
  | cons r rest ih =>
    have hdk : ¬ (d = k) := fun h => hk h.symm
    by_cases hd : r.date = d
    · have : ¬ r.date = k := by rw [hd]; exact Ne.symm hk
      simp [mapUpsert, hd, List.find?_cons, hf, this, hdk]
    · rw [show mapUpsert (r :: rest) d f = r :: mapUpsert rest d f from by
        simp [mapUpsert, hd]]
      by_cases hrk : r.date = k
      · simp [List.find?_cons, hrk]
      · simp [List.find?_cons, hrk, ih]

/-! ### Lemmas for one `forEach` pass (`foldPoints`) -/

/-- Folding the points of one date onto an optional existing row: absent rows
start from `getRow`'s fresh row. -/
def foldRowOpt {β : Type} (app : ChartRow → β → ChartRow) (k : Date)
    (acc : Option ChartRow) (l : List β) : Option ChartRow :=
  l.foldl (fun acc p => some (app (acc.getD (initRow k)) p)) acc

theorem foldRowOpt_nil {β : Type} (app : ChartRow → β → ChartRow) (k : Date)
    (acc : Option ChartRow) : foldRowOpt app k acc [] = acc := rfl

theorem foldRowOpt_some {β : Type} (app : ChartRow → β → ChartRow) (k : Date)
    (r : ChartRow) (l : List β) :
    foldRowOpt app k (some r) l = some (l.foldl app r) := by
  induction l generalizing r with
  | nil => rfl
  | cons p rest ih => simp [foldRowOpt, List.foldl_cons] at ih ⊢; exact ih (app r p)

theorem foldRowOpt_none {β : Type} (app : ChartRow → β → ChartRow) (k : Date)
    (l : List β) :
    foldRowOpt app k none l =
      if l.isEmpty then none else some (l.foldl app (initRow k)) := by
  cases l with
  | nil => rfl
  | cons p rest =>
    simp only [foldRowOpt, List.foldl_cons, List.isEmpty_cons, Option.getD_none]
    exact foldRowOpt_some app k (app (initRow k) p) rest

theorem find?_foldPoints {β : Type} (ds : β → Date) (app : ChartRow → β → ChartRow)
    (happ : ∀ r p, (app r p).date = r.date)
    (l : List β) (m : List ChartRow) (k : Date) :
    (foldPoints ds app l m).find? (fun r => decide (r.date = k)) =
      foldRowOpt app k (m.find? (fun r => decide (r.date = k)))
        (l.filter (fun p => decide (ds p = k))) := by
  induction l generalizing m with
  | nil => rfl
  | cons p rest ih =>
    have hstep : foldPoints ds app (p :: rest) m =
        foldPoints ds app rest (mapUpsert m (ds p) (fun row => app row p)) := rfl
    rw [hstep, ih]
    by_cases hk : ds p = k
    · subst hk
      rw [find?_mapUpsert_self m (ds p) _ (fun r => happ r p)]
      have hfil : (p :: rest).filter (fun q => decide (ds q = ds p)) =
          p :: rest.filter (fun q => decide (ds q = ds p)) := by
        simp [List.filter_cons]
      rw [hfil]
      simp only [foldRowOpt, List.foldl_cons]
    · rw [find?_mapUpsert_ne m (ds p) k _ (fun r => happ r p) (Ne.symm hk)]
      simp [List.filter_cons, hk]

theorem map_date_foldPoints_nodup {β : Type} (ds : β → Date)
    (app : ChartRow → β → ChartRow) (happ : ∀ r p, (app r p).date = r.date)
    (l : List β) (m : List ChartRow)
    (hm : (m.map (fun r => r.date)).Nodup) :
    ((foldPoints ds app l m).map (fun r => r.date)).Nodup := by
  induction l generalizing m with
  | nil => exact hm
  | cons p rest ih =>
    refine ih (mapUpsert m (ds p) (fun row => app row p)) ?_
    rw [map_date_mapUpsert m (ds p) _ (fun r => happ r p)]
    by_cases hmem : ds p ∈ m.map (fun r => r.date)
    · simpa [hmem] using hm
    · simpa [hmem, List.nodup_append] using hm

theorem mem_map_date_foldPoints {β : Type} (ds : β → Date)
    (app : ChartRow → β → ChartRow) (happ : ∀ r p, (app r p).date = r.date)
    (l : List β) (m : List ChartRow) (k : Date) :
    (k ∈ (foldPoints ds app l m).map (fun r => r.date)) ↔
      k ∈ m.map (fun r => r.date) ∨ k ∈ l.map ds := by
  induction l generalizing m with
  | nil => simp [foldPoints]
  | cons p rest ih =>
    have hstep : foldPoints ds app (p :: rest) m =
        foldPoints ds app rest (mapUpsert m (ds p) (fun row => app row p)) := rfl
    rw [hstep, ih]
    rw [map_date_mapUpsert m (ds p) _ (fun r => happ r p)]
    by_cases hmem : ds p ∈ m.map (fun r => r.date)
    · simp only [if_pos hmem, List.map_cons, List.mem_cons]
      constructor
      · rintro (h | h)
        · exact Or.inl h
        · exact Or.inr (Or.inr h)
      · rintro (h | h | h)
        · exact Or.inl h
        · exact Or.inl (h ▸ hmem)
        · exact Or.inr h
    · simp only [if_neg hmem, List.mem_append, List.mem_singleton, List.map_cons,
        List.mem_cons]
      tauto

/-! ### The populated `rowsMap` -/

/-- The row the populated `rowsMap` holds for date `k`, if any. -/
def rowAt (data : ForecastResponse) (k : Date) : Option ChartRow :=
  (buildRowsMap data).find? (fun r => decide (r.date = k))

/-- Per-date characterization of the merge map: the row for a date is the
fold of that date's history, pending and forecast points — in that source
order — over the fresh row. -/
theorem rowAt_eq (data : ForecastResponse) (k : Date) :
    rowAt data k =
      (if (data.history.filter (fun p => decide (p.ds = k))).isEmpty &&
          (data.pending_weeks.filter (fun p => decide (p.ds = k))).isEmpty &&
          (data.forecast.filter (fun p => decide (p.ds = k))).isEmpty then none
       else
         some ((data.forecast.filter (fun p => decide (p.ds = k))).foldl applyForecast
           ((data.pending_weeks.filter (fun p => decide (p.ds = k))).foldl applyPending
             ((data.history.filter (fun p => decide (p.ds = k))).foldl applyHistory
               (initRow k))))) := by
  unfold rowAt buildRowsMap
  rw [find?_foldPoints _ _ date_applyForecast,
    find?_foldPoints _ _ date_applyPending,
    find?_foldPoints _ _ date_applyHistory]
  simp only [List.find?_nil]
  set hs := data.history.filter (fun p => decide (p.ds = k)) with hhs
  set ps := data.pending_weeks.filter (fun p => decide (p.ds = k)) with hps
  set fs := data.forecast.filter (fun p => decide (p.ds = k)) with hfs
  rw [foldRowOpt_none]
  by_cases h1 : hs.isEmpty
  · rw [if_pos h1, foldRowOpt_none]
    by_cases h2 : ps.isEmpty
    · rw [if_pos h2, foldRowOpt_none]
      have h1' : hs = [] := by simpa [List.isEmpty_iff] using h1
      have h2' : ps = [] := by simpa [List.isEmpty_iff] using h2
      by_cases h3 : fs.isEmpty <;> simp [h1, h2, h3, h1', h2']
    · rw [if_neg h2, foldRowOpt_some]
      have h1' : hs = [] := by simpa [List.isEmpty_iff] using h1
      simp [h1, h2, h1']
  · rw [if_neg h1, foldRowOpt_some, foldRowOpt_some]
    simp [h1]

theorem nodup_map_date_buildRowsMap (data : ForecastResponse) :
    ((buildRowsMap data).map (fun r => r.date)).Nodup := by
  unfold buildRowsMap
  exact map_date_foldPoints_nodup _ _ date_applyForecast _ _
    (map_date_foldPoints_nodup _ _ date_applyPending _ _
      (map_date_foldPoints_nodup _ _ date_applyHistory _ _ (by simp)))

theorem mem_map_date_buildRowsMap (data : ForecastResponse) (k : Date) :
    (k ∈ (buildRowsMap data).map (fun r => r.date)) ↔
      k ∈ data.history.map (fun p => p.ds) ∨
      k ∈ data.pending_weeks.map (fun p => p.ds) ∨
      k ∈ data.forecast.map (fun p => p.ds) := by
  unfold buildRowsMap
  rw [mem_map_date_foldPoints _ _ date_applyForecast,
    mem_map_date_foldPoints _ _ date_applyPending,
    mem_map_date_foldPoints _ _ date_applyHistory]
  simp only [List.map_nil, List.not_mem_nil, false_or, or_assoc]

/-! ### Sorting -/

theorem sortRows_perm (rows : List ChartRow) : (sortRows rows).Perm rows :=
  List.mergeSort_perm rows _

theorem sorted_sortRows (rows : List ChartRow) :
    (sortRows rows).Pairwise (fun a b => a.date ≤ b.date) := by
  have h := @List.sorted_mergeSort ChartRow
    (fun a b : ChartRow => decide (a.date ≤ b.date))
    (fun a b c hab hbc => by
      simp only [decide_eq_true_eq] at hab hbc ⊢
      exact le_trans hab hbc)
    (fun a b => by
      simp only [Bool.or_eq_true, decide_eq_true_eq]
      exact le_total a.date b.date)
    rows
  exact h.imp (fun hab => by simpa using hab)

theorem pairwise_lt_of_nodup_dates (l : List ChartRow)
    (hnd : (l.map (fun r => r.date)).Nodup)
    (hle : l.Pairwise (fun a b => a.date ≤ b.date)) :
    l.Pairwise (fun a b => a.date < b.date) := by
  have hne : l.Pairwise (fun a b => a.date ≠ b.date) := by
    have h : (l.map (fun r => r.date)).Pairwise (fun a b => a ≠ b) := hnd
    rw [List.pairwise_map] at h
    exact h
  exact (hle.and hne).imp (fun h => lt_of_le_of_ne h.1 h.2)

theorem find?_congr_of_perm_nodup (l l₂ : List ChartRow) (hp : l.Perm l₂)
    (hnd : (l.map (fun r => r.date)).Nodup) (k : Date) :
    l.find? (fun r => decide (r.date = k)) = l₂.find? (fun r => decide (r.date = k)) := by
  cases h : l.find? (fun r => decide (r.date = k)) with
  | none =>
    rw [List.find?_eq_none] at h
    symm
    rw [List.find?_eq_none]
    intro x hx
    exact h x (hp.mem_iff.mpr hx)
  | some r =>
    have hr : r ∈ l := List.mem_of_find?_eq_some h
    have hrk : r.date = k := by simpa using List.find?_some h
    cases h₂ : l₂.find? (fun r => decide (r.date = k)) with
    | none =>
      rw [List.find?_eq_none] at h₂
      exact absurd (by simpa using hrk) (h₂ r (hp.mem_iff.mp hr))
    | some r₂ =>
      have hr₂ : r₂ ∈ l := hp.mem_iff.mpr (List.mem_of_find?_eq_some h₂)
      have hrk₂ : r₂.date = k := by simpa using List.find?_some h₂
      have := List.inj_on_of_nodup_map hnd hr hr₂ (hrk.trans hrk₂.symm)
      rw [this]

theorem nodup_map_date_mergedMapRows (data : ForecastResponse) :
    ((mergedMapRows data).map (fun r => r.date)).Nodup := by
  have hperm := (sortRows_perm (buildRowsMap data)).map (fun r => r.date)
  exact hperm.nodup_iff.mpr (nodup_map_date_buildRowsMap data)

theorem find?_mergedMapRows (data : ForecastResponse) (k : Date) :
    (mergedMapRows data).find? (fun r => decide (r.date = k)) = rowAt data k := by
  exact find?_congr_of_perm_nodup _ _ (sortRows_perm (buildRowsMap data))
    (nodup_map_date_mergedMapRows data) k

theorem pairwise_lt_mergedMapRows (data : ForecastResponse) :
    (mergedMapRows data).Pairwise (fun a b => a.date < b.date) :=
  pairwise_lt_of_nodup_dates _ (nodup_map_date_mergedMapRows data)
    (sorted_sortRows (buildRowsMap data))

/-! ### Generic fold helpers -/

theorem foldl_rel {σ β : Type} (R : σ → σ → Prop) (f : σ → β → σ) (l : List β) (s : σ)
    (htrans : ∀ a b c, R a b → R b c → R a c)
    (hrefl : R s s)
    (hstep : ∀ t b, R s t → R t (f t b)) : R s (l.foldl f s) := by
  suffices h : ∀ t, R s t → R s (l.foldl f t) from h s hrefl
  induction l with
  | nil => exact fun t ht => ht
  | cons b rest ih =>
    intro t ht
    exact ih (f t b) (htrans _ _ _ ht (hstep t b ht))

theorem foldl_inv {σ β : Type} (P : σ → Prop) (f : σ → β → σ) (l : List β) (s : σ)
    (hstep : ∀ t b, P t → P (f t b)) (hs : P s) : P (l.foldl f s) := by
  induction l generalizing s with
  | nil => exact hs
  | cons b rest ih => exact ih (f s b) (hstep s b hs)

/-! ### Structure of the manual-connector pass -/

/-- The fields of a row the manual-connector pass never writes. -/
def SameCore (a b : ChartRow) : Prop :=
  a.date = b.date ∧ a.actualReal = b.actualReal ∧ a.filledValue = b.filledValue ∧
  a.forecastValue = b.forecastValue ∧ a.actualSource = b.actualSource ∧
  a.filledSource = b.filledSource ∧ a.hasHistory = b.hasHistory ∧
  a.hasForecast = b.hasForecast ∧ a.isPending = b.isPending

theorem sameCore_refl (a : ChartRow) : SameCore a a :=
  ⟨rfl, rfl, rfl, rfl, rfl, rfl, rfl, rfl, rfl⟩

theorem sameCore_trans {a b c : ChartRow} (h₁ : SameCore a b) (h₂ : SameCore b c) :
    SameCore a c := by
  obtain ⟨e1, e2, e3, e4, e5, e6, e7, e8, e9⟩ := h₁
  obtain ⟨f1, f2, f3, f4, f5, f6, f7, f8, f9⟩ := h₂
  exact ⟨e1.trans f1, e2.trans f2, e3.trans f3, e4.trans f4, e5.trans f5,
    e6.trans f6, e7.trans f7, e8.trans f8, e9.trans f9⟩

/-- How a state of the pass relates to the initial sorted rows: same length,
per-index unchanged core fields, and a `filledLineValue` that is either
untouched or cleared. -/
def PassRel (a b : List ChartRow) : Prop :=
  a.length = b.length ∧
  ∀ i (ha : i < a.length) (hb : i < b.length),
    SameCore (a.get ⟨i, ha⟩) (b.get ⟨i, hb⟩) ∧
    ((b.get ⟨i, hb⟩).filledLineValue = (a.get ⟨i, ha⟩).filledLineValue ∨
      (b.get ⟨i, hb⟩).filledLineValue = none)

theorem passRel_refl (a : List ChartRow) : PassRel a a :=
  ⟨rfl, fun i ha _ => ⟨sameCore_refl _, Or.inl rfl⟩⟩

theorem passRel_trans {a b c : List ChartRow} (h₁ : PassRel a b) (h₂ : PassRel b c) :
    PassRel a c := by
  obtain ⟨hl₁, h₁⟩ := h₁
  obtain ⟨hl₂, h₂⟩ := h₂
  refine ⟨hl₁.trans hl₂, fun i ha hc => ?_⟩
  have hb : i < b.length := hl₁ ▸ ha
  obtain ⟨c₁, f₁⟩ := h₁ i ha hb
  obtain ⟨c₂, f₂⟩ := h₂ i hb hc
  refine ⟨sameCore_trans c₁ c₂, ?_⟩
  rcases f₂ with f₂ | f₂
  · rcases f₁ with f₁ | f₁
    · exact Or.inl (f₂.trans f₁)
    · exact Or.inr (f₂.trans f₁)
  · exact Or.inr f₂

theorem passRel_set (a : List ChartRow) (j : Nat) (v : ChartRow)
    (hj : j < a.length)
    (hcore : SameCore (a.get ⟨j, hj⟩) v)
    (hfill : v.filledLineValue = (a.get ⟨j, hj⟩).filledLineValue ∨
      v.filledLineValue = none) :
    PassRel a (a.set j v) := by
  refine ⟨(List.length_set a j v).symm, fun i ha hb => ?_⟩
  by_cases hij : i = j
  · subst hij
    have : (a.set i v).get ⟨i, hb⟩ = v := by
      simp [List.get_eq_getElem]
    rw [this]
    exact ⟨hcore, hfill⟩
  · have : (a.set j v).get ⟨i, hb⟩ = a.get ⟨i, ha⟩ := by
      simp [List.get_eq_getElem, List.getElem_set_ne (Ne.symm hij)]
    rw [this]
    exact ⟨sameCore_refl _, Or.inl rfl⟩

theorem passRel_linkNeighbor (rows : List ChartRow) (n : Int) (b : Bool) :
    PassRel rows (linkNeighbor rows n b) := by
  unfold linkNeighbor
  split
  · exact passRel_refl rows
  · cases hget : rows[n.toNat]? with
    | none => exact passRel_refl rows
    | some neighbor =>
      simp only
      split
      · exact passRel_refl rows
      · cases hbest : bestAvailable neighbor with
        | none => exact passRel_refl rows
        | some value =>
          simp only
          have hn : n.toNat < rows.length := by
            by_contra hlt
            rw [List.getElem?_eq_none (le_of_not_lt hlt)] at hget
            exact Option.noConfusion hget
          have hne : rows.get ⟨n.toNat, hn⟩ = neighbor := by
            have := List.getElem?_eq_getElem hn
            rw [this] at hget
            simpa using hget
          split
          · refine passRel_set rows n.toNat _ hn ?_ ?_
            · rw [hne]
              exact ⟨rfl, rfl, rfl, rfl, rfl, rfl, rfl, rfl, rfl⟩
            · exact Or.inr rfl
          · refine passRel_set rows n.toNat _ hn ?_ ?_
            · rw [hne]
              exact ⟨rfl, rfl, rfl, rfl, rfl, rfl, rfl, rfl, rfl⟩
            · rw [hne]
              exact Or.inl rfl

theorem passRel_connectorStep (rows : List ChartRow) (idx : Nat) :
    PassRel rows (connectorStep rows idx) := by
  unfold connectorStep
  cases hget : rows[idx]? with
  | none => exact passRel_refl rows
  | some row =>
    simp only
    split
    · have hidx : idx < rows.length := by
        by_contra hlt
        rw [List.getElem?_eq_none (le_of_not_lt hlt)] at hget
        exact Option.noConfusion hget
      have hrow : rows.get ⟨idx, hidx⟩ = row := by
        have := List.getElem?_eq_getElem hidx
        rw [this] at hget
        simpa using hget
      have h₁ : PassRel rows (rows.set idx
          { row with manualConnector := row.actualReal, filledLineValue := none }) := by
        refine passRel_set rows idx _ hidx ?_ (Or.inr rfl)
        rw [hrow]
        exact ⟨rfl, rfl, rfl, rfl, rfl, rfl, rfl, rfl, rfl⟩
      exact passRel_trans h₁ (passRel_trans (passRel_linkNeighbor _ _ _) (passRel_linkNeighbor _ _ _))
    · exact passRel_refl rows

theorem passRel_connectorPass (rows : List ChartRow) :
    PassRel rows (connectorPass rows) := by
  unfold connectorPass
  exact foldl_rel PassRel connectorStep _ rows
    (fun a b c => passRel_trans) (passRel_refl rows)
    (fun t b _ => passRel_connectorStep t b)

theorem length_connectorPass (rows : List ChartRow) :
    (connectorPass rows).length = rows.length :=
  (passRel_connectorPass rows).1.symm

theorem map_date_connectorPass (rows : List ChartRow) :
    (connectorPass rows).map (fun r => r.date) = rows.map (fun r => r.date) := by
  obtain ⟨hlen, hrel⟩ := passRel_connectorPass rows
  refine List.ext_getElem (by simp [hlen]) (fun i h₁ h₂ => ?_)
  simp only [List.getElem_map]
  have ha : i < rows.length := by simpa using h₂
  have hb : i < (connectorPass rows).length := by simpa using h₁
  exact ((hrel i ha hb).1.1).symm

/-! ### Looking up a date after the pass -/

theorem find?_congr_dates (a b : List ChartRow) (k : Date)
    (hlen : a.length = b.length)
    (hdates : ∀ i (ha : i < a.length) (hb : i < b.length),
      (a.get ⟨i, ha⟩).date = (b.get ⟨i, hb⟩).date) :
    (a.find? (fun r => decide (r.date = k)) = none ∧
      b.find? (fun r => decide (r.date = k)) = none) ∨
    (∃ (i : Nat) (ha : i < a.length) (hb : i < b.length),
      a.find? (fun r => decide (r.date = k)) = some (a.get ⟨i, ha⟩) ∧
      b.find? (fun r => decide (r.date = k)) = some (b.get ⟨i, hb⟩)) := by
  induction a generalizing b with
  | nil =>
    cases b with
    | nil => exact Or.inl ⟨rfl, rfl⟩
    | cons y ys => exact absurd hlen (by simp)
  | cons x xs ih =>
    cases b with
    | nil => exact absurd hlen (by simp)
    | cons y ys =>
      have hxy : x.date = y.date := hdates 0 (by simp) (by simp)
      by_cases hk : x.date = k
      · refine Or.inr ⟨0, by simp, by simp, ?_, ?_⟩
        · simp [List.find?_cons, hk]
        · simp [List.find?_cons, hxy ▸ hk]
      · have hyk : ¬ y.date = k := hxy ▸ hk
        have hlen' : xs.length = ys.length := by simpa using hlen
        have hdates' : ∀ i (ha : i < xs.length) (hb : i < ys.length),
            (xs.get ⟨i, ha⟩).date = (ys.get ⟨i, hb⟩).date := by
          intro i ha hb
          exact hdates (i + 1) (by simpa using Nat.succ_lt_succ ha)
            (by simpa using Nat.succ_lt_succ hb)
        rcases ih ys hlen' hdates' with ⟨h₁, h₂⟩ | ⟨i, ha, hb, h₁, h₂⟩
        · refine Or.inl ⟨?_, ?_⟩
          · simp [List.find?_cons, hk, h₁]
          · simp [List.find?_cons, hyk, h₂]
        · refine Or.inr ⟨i + 1, by simpa using Nat.succ_lt_succ ha,
            by simpa using Nat.succ_lt_succ hb, ?_, ?_⟩
          · simpa [List.find?_cons, hk] using h₁
          · simpa [List.find?_cons, hyk] using h₂

/-- Looking a date up in the final merged rows: the row found is the merge
map's row for that date, with identical core fields and a `filledLineValue`
that the manual-connector pass either kept or cleared. -/
theorem find?_mergeRows (data : ForecastResponse) (k : Date) (r : ChartRow)
    (h : rowAt data k = some r) :
    ∃ r₂, (mergeRows data).find? (fun r => decide (r.date = k)) = some r₂ ∧
      SameCore r r₂ ∧
      (r₂.filledLineValue = r.filledLineValue ∨ r₂.filledLineValue = none) := by
  obtain ⟨hlen, hrel⟩ := passRel_connectorPass (mergedMapRows data)
  have hdates : ∀ i (ha : i < (mergedMapRows data).length)
      (hb : i < (mergeRows data).length),
      ((mergedMapRows data).get ⟨i, ha⟩).date = ((mergeRows data).get ⟨i, hb⟩).date :=
    fun i ha hb => (hrel i ha hb).1.1
  rcases find?_congr_dates (mergedMapRows data) (mergeRows data) k hlen hdates with
    ⟨h₁, _⟩ | ⟨i, ha, hb, h₁, h₂⟩
  · rw [find?_mergedMapRows data k] at h₁
    rw [h] at h₁
    exact Option.noConfusion h₁
  · rw [find?_mergedMapRows data k] at h₁
    rw [h] at h₁
    have hr : (mergedMapRows data).get ⟨i, ha⟩ = r := by
      injection h₁.symm
    obtain ⟨hcore, hfill⟩ := hrel i ha hb
    rw [hr] at hcore hfill
    exact ⟨(mergeRows data).get ⟨i, hb⟩, h₂, hcore, hfill⟩

theorem find?_mergeRows_none (data : ForecastResponse) (k : Date)
    (h : rowAt data k = none) :
    (mergeRows data).find? (fun r => decide (r.date = k)) = none := by
  obtain ⟨hlen, hrel⟩ := passRel_connectorPass (mergedMapRows data)
  have hdates : ∀ i (ha : i < (mergedMapRows data).length)
      (hb : i < (mergeRows data).length),
      ((mergedMapRows data).get ⟨i, ha⟩).date = ((mergeRows data).get ⟨i, hb⟩).date :=
    fun i ha hb => (hrel i ha hb).1.1
  rcases find?_congr_dates (mergedMapRows data) (mergeRows data) k hlen hdates with
    ⟨_, h₂⟩ | ⟨i, ha, hb, h₁, h₂⟩
  · exact h₂
  · rw [find?_mergedMapRows data k, h] at h₁
    exact Option.noConfusion h₁

/-! ### The effect of a single manual-connector step -/

theorem lt_of_getElem?_some {l : List ChartRow} {i : Nat} {r : ChartRow}
    (h : l[i]? = some r) : i < l.length := by
  by_contra hlt
  rw [List.getElem?_eq_none (le_of_not_lt hlt)] at h
  exact Option.noConfusion h

theorem linkNeighbor_skip_neg (rows : List ChartRow) (n : Int) (b : Bool)
    (hn : n < 0) : linkNeighbor rows n b = rows := by
  unfold linkNeighbor
  rw [if_pos hn]

theorem linkNeighbor_skip_out (rows : List ChartRow) (n : Int) (b : Bool)
    (hn : ¬ n < 0) (hout : rows[n.toNat]? = none) : linkNeighbor rows n b = rows := by
  unfold linkNeighbor
  rw [if_neg hn, hout]

theorem linkNeighbor_skip_claimed (rows : List ChartRow) (n : Int) (b : Bool)
    (nb : ChartRow) (hn : ¬ n < 0) (hget : rows[n.toNat]? = some nb)
    (hmc : nb.manualConnector.isSome) : linkNeighbor rows n b = rows := by
  unfold linkNeighbor
  rw [if_neg hn, hget]
  simp only [hmc, if_pos]

theorem linkNeighbor_skip_noValue (rows : List ChartRow) (n : Int) (b : Bool)
    (nb : ChartRow) (hn : ¬ n < 0) (hget : rows[n.toNat]? = some nb)
    (hmc : nb.manualConnector = none) (hbest : bestAvailable nb = none) :
    linkNeighbor rows n b = rows := by
  unfold linkNeighbor
  rw [if_neg hn, hget]
  simp only [hmc, Option.isSome_none, Bool.false_eq_true, if_false, hbest]

theorem linkNeighbor_write_back (rows : List ChartRow) (n : Int)
    (nb : ChartRow) (u : JSNum) (hn : ¬ n < 0) (hget : rows[n.toNat]? = some nb)
    (hmc : nb.manualConnector = none) (hbest : bestAvailable nb = some u) :
    linkNeighbor rows n false =
      rows.set n.toNat { nb with manualConnector := some u } := by
  unfold linkNeighbor
  rw [if_neg hn, hget]
  simp only [hmc, Option.isSome_none, Bool.false_eq_true, if_false, hbest,
    Bool.false_and]

theorem linkNeighbor_write_forward (rows : List ChartRow) (n : Int)
    (nb : ChartRow) (u : JSNum) (hn : ¬ n < 0) (hget : rows[n.toNat]? = some nb)
    (hmc : nb.manualConnector = none) (hbest : bestAvailable nb = some u) :
    linkNeighbor rows n true =
      rows.set n.toNat
        { nb with manualConnector := some u, filledLineValue := none } := by
  unfold linkNeighbor
  rw [if_neg hn, hget]
  simp only [hmc, Option.isSome_none, Bool.false_eq_true, if_false, hbest,
    Bool.true_and]
  cases hfl : nb.filledLineValue with
  | none =>
    simp only [hfl, Option.isSome_none, Bool.false_eq_true, if_false]
  | some w =>
    simp only [hfl, Option.isSome_some, if_true]

theorem getElem?_linkNeighbor_other (rows : List ChartRow) (n : Int) (b : Bool)
    (i : Nat) (hne : (i : Int) ≠ n) :
    (linkNeighbor rows n b)[i]? = rows[i]? := by
  unfold linkNeighbor
  by_cases hneg : n < 0
  · rw [if_pos hneg]
  · rw [if_neg hneg]
    have hni : n.toNat ≠ i := by omega
    cases hget : rows[n.toNat]? with
    | none => rfl
    | some neighbor =>
      simp only
      by_cases hmc : neighbor.manualConnector.isSome
      · rw [if_pos hmc]
      · rw [if_neg hmc]
        cases hbest : bestAvailable neighbor with
        | none => rfl
        | some value =>
          simp only
          split <;> exact List.getElem?_set_ne hni

theorem linkNeighbor_keep (rows : List ChartRow) (n : Int) (b : Bool)
    (i : Nat) (r : ChartRow) (hi : rows[i]? = some r)
    (hmc : r.manualConnector.isSome) :
    (linkNeighbor rows n b)[i]? = some r := by
  by_cases htgt : (i : Int) = n
  · subst htgt
    have hn : ¬ (i : Int) < 0 := by omega
    have : ((i : Int)).toNat = i := by omega
    rw [linkNeighbor_skip_claimed rows i b r hn (by rw [this]; exact hi)
      hmc]
    exact hi
  · rw [getElem?_linkNeighbor_other rows n b i htgt]
    exact hi

/-- A step of the pass at another index never disturbs a row whose
`manualConnector` is already set. -/
theorem connectorStep_keep (s : List ChartRow) (j i : Nat) (hij : i ≠ j)
    (r : ChartRow) (hi : s[i]? = some r) (hmc : r.manualConnector.isSome) :
    (connectorStep s j)[i]? = some r := by
  unfold connectorStep
  cases hget : s[j]? with
  | none => exact hi
  | some rowj =>
    simp only
    split
    · have h₁ : (s.set j
          { rowj with manualConnector := rowj.actualReal, filledLineValue := none })[i]? =
          some r := by
        rw [List.getElem?_set_ne (Ne.symm hij)]
        exact hi
      exact linkNeighbor_keep _ _ _ i r (linkNeighbor_keep _ _ _ i r h₁ hmc) hmc
    · exact hi

theorem connectorSteps_keep (l : List Nat) (s : List ChartRow) (i : Nat)
    (hl : ∀ j ∈ l, j ≠ i) (r : ChartRow) (hi : s[i]? = some r)
    (hmc : r.manualConnector.isSome) :
    (l.foldl connectorStep s)[i]? = some r := by
  induction l generalizing s with
  | nil => exact hi
  | cons j rest ih =>
    rw [List.foldl_cons]
    exact ih (connectorStep s j) (fun j' hj' => hl j' (List.mem_cons_of_mem j hj'))
      (connectorStep_keep s j i (Ne.symm (hl j (List.mem_cons_self j rest))) r hi hmc)

theorem connectorStep_eq_of_manual (s : List ChartRow) (idx : Nat)
    (row : ChartRow) (v : JSNum) (hget : s[idx]? = some row)
    (hsrc : row.actualSource = some HistorySource.manual)
    (hval : row.actualReal = some v) :
    connectorStep s idx =
      linkNeighbor
        (linkNeighbor
          (s.set idx { row with manualConnector := some v, filledLineValue := none })
          ((idx : Int) - 1) false)
        ((idx : Int) + 1) true := by
  unfold connectorStep
  rw [hget]
  simp only
  rw [if_pos ⟨hsrc, by rw [hval]; rfl⟩, hval]

/-- After the step at a manual row's index, that row carries its
`actualReal` as connector and a cleared `filledLineValue`. -/
theorem connectorStep_manual_self (s : List ChartRow) (idx : Nat)
    (row : ChartRow) (v : JSNum) (hget : s[idx]? = some row)
    (hsrc : row.actualSource = some HistorySource.manual)
    (hval : row.actualReal = some v) :
    (connectorStep s idx)[idx]? =
      some { row with manualConnector := some v, filledLineValue := none } := by
  rw [connectorStep_eq_of_manual s idx row v hget hsrc hval]
  rw [getElem?_linkNeighbor_other _ _ _ idx (by omega)]
  rw [getElem?_linkNeighbor_other _ _ _ idx (by omega)]
  exact List.getElem?_set_self (lt_of_getElem?_some hget)

/-! ### Field-level behaviour of the per-point writes -/

theorem applyForecast_spec (r : ChartRow) (p : ForecastPoint) :
    (applyForecast r p).filledValue = r.filledValue ∧
    (applyForecast r p).filledLineValue = r.filledLineValue ∧
    (applyForecast r p).filledSource = r.filledSource ∧
    (applyForecast r p).isPending = r.isPending ∧
    (applyForecast r p).hasHistory = r.hasHistory ∧
    (applyForecast r p).manualConnector = r.manualConnector ∧
    (applyForecast r p).hasForecast = true ∧
    (applyForecast r p).forecastValue = some p.y_pred := by
  unfold applyForecast
  cases p.actual with
  | none => exact ⟨rfl, rfl, rfl, rfl, rfl, rfl, rfl, rfl⟩
  | some a =>
    dsimp only
    split <;> exact ⟨rfl, rfl, rfl, rfl, rfl, rfl, rfl, rfl⟩

theorem applyForecast_actual_of_some (r : ChartRow) (p : ForecastPoint)
    (x : JSNum) (hx : r.actualReal = some x) :
    (applyForecast r p).actualReal = some x ∧
    (applyForecast r p).actualSource = r.actualSource := by
  unfold applyForecast
  cases p.actual with
  | none => exact ⟨hx, rfl⟩
  | some a =>
    dsimp only
    rw [if_neg (by rw [hx]; rintro ⟨h, -⟩; exact Option.noConfusion h)]
    exact ⟨hx, rfl⟩

theorem foldl_applyForecast_fields (fs : List ForecastPoint) (r : ChartRow) :
    (fs.foldl applyForecast r).filledValue = r.filledValue ∧
    (fs.foldl applyForecast r).filledLineValue = r.filledLineValue ∧
    (fs.foldl applyForecast r).filledSource = r.filledSource ∧
    (fs.foldl applyForecast r).isPending = r.isPending ∧
    (fs.foldl applyForecast r).hasHistory = r.hasHistory := by
  induction fs generalizing r with
  | nil => exact ⟨rfl, rfl, rfl, rfl, rfl⟩
  | cons p rest ih =>
    obtain ⟨h1, h2, h3, h4, h5, _, _, _⟩ := applyForecast_spec r p
    obtain ⟨g1, g2, g3, g4, g5⟩ := ih (applyForecast r p)
    rw [List.foldl_cons]
    exact ⟨g1.trans h1, g2.trans h2, g3.trans h3, g4.trans h4, g5.trans h5⟩

theorem foldl_applyForecast_actual_of_some (fs : List ForecastPoint) (r : ChartRow)
    (x : JSNum) (hx : r.actualReal = some x) :
    (fs.foldl applyForecast r).actualReal = some x ∧
    (fs.foldl applyForecast r).actualSource = r.actualSource := by
  induction fs generalizing r with
  | nil => exact ⟨hx, rfl⟩
  | cons p rest ih =>
    obtain ⟨h1, h2⟩ := applyForecast_actual_of_some r p x hx
    obtain ⟨g1, g2⟩ := ih (applyForecast r p) h1
    rw [List.foldl_cons]
    exact ⟨g1, g2.trans h2⟩

theorem applyPending_spec (r : ChartRow) (p : PendingWeek) :
    (applyPending r p).actualReal = r.actualReal ∧
    (applyPending r p).actualSource = r.actualSource ∧
    (applyPending r p).hasHistory = r.hasHistory ∧
    (applyPending r p).forecastValue = r.forecastValue ∧
    (applyPending r p).filledValue = some p.prediction ∧
    (applyPending r p).filledLineValue = some p.prediction ∧
    (applyPending r p).filledSource = some FillSource.pending ∧
    (applyPending r p).isPending = true :=
  ⟨rfl, rfl, rfl, rfl, rfl, rfl, rfl, rfl⟩

theorem foldl_applyPending_fields (ps : List PendingWeek) (r : ChartRow) :
    (ps.foldl applyPending r).actualReal = r.actualReal ∧
    (ps.foldl applyPending r).actualSource = r.actualSource ∧
    (ps.foldl applyPending r).hasHistory = r.hasHistory ∧
    (ps.foldl applyPending r).forecastValue = r.forecastValue := by
  induction ps generalizing r with
  | nil => exact ⟨rfl, rfl, rfl, rfl⟩
  | cons p rest ih =>
    obtain ⟨g1, g2, g3, g4⟩ := ih (applyPending r p)
    rw [List.foldl_cons]
    exact ⟨g1, g2, g3, g4⟩

theorem applyHistory_actual_spec (r : ChartRow) (p : HistoryPoint)
    (h : p.source = HistorySource.observed ∨ p.source = HistorySource.manual) :
    (applyHistory r p).actualReal = some p.y ∧
    (applyHistory r p).actualSource = some p.source ∧
    (applyHistory r p).hasHistory = true ∧
    (applyHistory r p).filledValue = r.filledValue ∧
    (applyHistory r p).filledLineValue = r.filledLineValue := by
  unfold applyHistory
  rw [if_pos h]
  exact ⟨rfl, rfl, rfl, rfl, rfl⟩

theorem applyHistory_fill_spec (r : ChartRow) (p : HistoryPoint)
    (h : ¬ (p.source = HistorySource.observed ∨ p.source = HistorySource.manual)) :
    (applyHistory r p).actualReal = r.actualReal ∧
    (applyHistory r p).actualSource = r.actualSource ∧
    (applyHistory r p).hasHistory = true ∧
    (applyHistory r p).filledValue = some p.y ∧
    (applyHistory r p).filledLineValue = some p.y := by
  unfold applyHistory
  rw [if_neg h]
  exact ⟨rfl, rfl, rfl, rfl, rfl⟩

/-! ### Filtering a collection with distinct dates -/

theorem filter_ds_eq_singleton {β : Type} (ds : β → Date) (l : List β) (p : β)
    (k : Date) (hnd : (l.map ds).Nodup) (hp : p ∈ l) (hk : ds p = k) :
    l.filter (fun x => decide (ds x = k)) = [p] := by
  subst hk
  induction l with
  | nil => cases hp
  | cons x rest ih =>
    rw [List.map_cons, List.nodup_cons] at hnd
    obtain ⟨hx, hrest⟩ := hnd
    rcases List.mem_cons.mp hp with hpx | hpr
    · subst hpx
      have hnil : rest.filter (fun y => decide (ds y = ds p)) = [] := by
        rw [List.filter_eq_nil_iff]
        intro y hy
        simp only [decide_eq_true_eq]
        intro hcontra
        exact hx (hcontra ▸ List.mem_map_of_mem ds hy)
      simp [List.filter_cons, hnil]
    · have hne : ds x ≠ ds p := by
        intro hcontra
        exact hx (hcontra ▸ List.mem_map_of_mem ds hpr)
      simp only [List.filter_cons, decide_eq_true_eq]
      rw [if_neg hne]
      exact ih hrest hpr

theorem filter_ds_eq_nil {β : Type} (ds : β → Date) (l : List β) (k : Date)
    (h : ∀ p ∈ l, ds p ≠ k) :
    l.filter (fun x => decide (ds x = k)) = [] := by
  rw [List.filter_eq_nil_iff]
  intro y hy
  simp only [decide_eq_true_eq]
  exact h y hy

/-- C1: for input collections with pairwise-distinct dates within each
collection, the merge yields exactly one row per distinct date appearing in
any collection, the rows are strictly sorted by calendar date ascending
(compared as dates via their parsed epoch times, not lexically), and no two
rows share a date. -/
theorem merge_one_row_per_date_sorted (data : ForecastResponse)
    (hh : (data.history.map (fun p => p.ds)).Nodup)
    (hp : (data.pending_weeks.map (fun p => p.ds)).Nodup)
    (hf : (data.forecast.map (fun p => p.ds)).Nodup) :
    ((mergeRows data).map (fun r => r.date)).Nodup ∧
    (mergeRows data).Pairwise (fun a b => a.date < b.date) ∧
    (∀ d : Date, d ∈ (mergeRows data).map (fun r => r.date) ↔
      (d ∈ data.history.map (fun p => p.ds) ∨
       d ∈ data.pending_weeks.map (fun p => p.ds) ∨
       d ∈ data.forecast.map (fun p => p.ds))) := by
  have hmapeq : (mergeRows data).map (fun r => r.date) =
      (mergedMapRows data).map (fun r => r.date) :=
    map_date_connectorPass (mergedMapRows data)
  refine ⟨?_, ?_, ?_⟩
  · rw [hmapeq]
    exact nodup_map_date_mergedMapRows data
  · have h₁ : ((mergedMapRows data).map (fun r => r.date)).Pairwise (fun a b => a < b) :=
      List.pairwise_map.mpr (pairwise_lt_mergedMapRows data)
    rw [← hmapeq] at h₁
    exact List.pairwise_map.mp h₁
  · intro d
    rw [hmapeq]
    have hperm : ((mergedMapRows data).map (fun r => r.date)).Perm
        ((buildRowsMap data).map (fun r => r.date)) :=
      (sortRows_perm (buildRowsMap data)).map _
    rw [hperm.mem_iff]
    exact mem_map_date_buildRowsMap data d

/-- Concrete data for the C1 witness: two observed history weeks and one
forecast week. -/
def exC1 : ForecastResponse :=
  { history := [⟨1, JSNum.num 3, HistorySource.observed⟩,
      ⟨2, JSNum.num 5, HistorySource.observed⟩]
    forecast := [⟨3, JSNum.num 1, JSNum.num 9, none⟩]
    pending_weeks := [] }

theorem merge_one_row_per_date_sorted_witness :
    (exC1.history.map (fun p => p.ds)).Nodup ∧
    (exC1.pending_weeks.map (fun p => p.ds)).Nodup ∧
    (exC1.forecast.map (fun p => p.ds)).Nodup ∧
    ((mergeRows exC1).map (fun r => r.date)).Nodup ∧
    (mergeRows exC1).Pairwise (fun a b => a.date < b.date) ∧
    ((3 : Date) ∈ (mergeRows exC1).map (fun r => r.date) ↔
      ((3 : Date) ∈ exC1.history.map (fun p => p.ds) ∨
       (3 : Date) ∈ exC1.pending_weeks.map (fun p => p.ds) ∨
       (3 : Date) ∈ exC1.forecast.map (fun p => p.ds))) :=
  ⟨by decide, by decide, by decide,
    (merge_one_row_per_date_sorted exC1 (by decide) (by decide) (by decide)).1,
    (merge_one_row_per_date_sorted exC1 (by decide) (by decide) (by decide)).2.1,
    (merge_one_row_per_date_sorted exC1 (by decide) (by decide) (by decide)).2.2 3⟩

/-! ### Neighbour behaviour of one manual-connector step -/

theorem connectorStep_pred_spec (s : List ChartRow) (j : Nat) (row p : ChartRow)
    (v : JSNum) (hget : s[j + 1]? = some row)
    (hsrc : row.actualSource = some HistorySource.manual)
    (hval : row.actualReal = some v) (hp : s[j]? = some p) :
    (p.manualConnector.isSome = true → (connectorStep s (j + 1))[j]? = some p) ∧
    (p.manualConnector = none → bestAvailable p = none →
      (connectorStep s (j + 1))[j]? = some p) ∧
    (∀ u, p.manualConnector = none → bestAvailable p = some u →
      (connectorStep s (j + 1))[j]? = some { p with manualConnector := some u }) := by
  rw [connectorStep_eq_of_manual s (j + 1) row v hget hsrc hval]
  set s₁ := s.set (j + 1)
    { row with manualConnector := some v, filledLineValue := none } with hs₁def
  have hs₁j : s₁[j]? = some p := by
    rw [hs₁def, List.getElem?_set_ne (by omega)]
    exact hp
  have hcast : (((j + 1 : Nat) : Int) - 1) = ((j : Nat) : Int) := by omega
  have hjnn : ¬ ((j : Nat) : Int) < 0 := by omega
  have hjtoNat : (((j : Nat) : Int)).toNat = j := by omega
  have houter : ∀ t : List ChartRow,
      (linkNeighbor t (((j + 1 : Nat) : Int) + 1) true)[j]? = t[j]? := by
    intro t
    exact getElem?_linkNeighbor_other t _ true j (by omega)
  refine ⟨?_, ?_, ?_⟩
  · intro hmc
    rw [hcast, houter,
      linkNeighbor_skip_claimed s₁ _ false p hjnn (by rw [hjtoNat]; exact hs₁j) hmc]
    exact hs₁j
  · intro hmc hbest
    rw [hcast, houter,
      linkNeighbor_skip_noValue s₁ _ false p hjnn (by rw [hjtoNat]; exact hs₁j)
        hmc hbest]
    exact hs₁j
  · intro u hmc hbest
    rw [hcast, houter,
      linkNeighbor_write_back s₁ _ p u hjnn (by rw [hjtoNat]; exact hs₁j) hmc hbest]
    rw [hjtoNat]
    exact List.getElem?_set_self (lt_of_getElem?_some hs₁j)

theorem connectorStep_succ_spec (s : List ChartRow) (idx : Nat) (row q : ChartRow)
    (v : JSNum) (hget : s[idx]? = some row)
    (hsrc : row.actualSource = some HistorySource.manual)
    (hval : row.actualReal = some v) (hq : s[idx + 1]? = some q) :
    (q.manualConnector.isSome = true → (connectorStep s idx)[idx + 1]? = some q) ∧
    (q.manualConnector = none → bestAvailable q = none →
      (connectorStep s idx)[idx + 1]? = some q) ∧
    (∀ u, q.manualConnector = none → bestAvailable q = some u →
      (connectorStep s idx)[idx + 1]? =
        some { q with manualConnector := some u, filledLineValue := none }) := by
  rw [connectorStep_eq_of_manual s idx row v hget hsrc hval]
  set s₁ := s.set idx
    { row with manualConnector := some v, filledLineValue := none } with hs₁def
  set s₂ := linkNeighbor s₁ ((idx : Int) - 1) false with hs₂def
  have hs₂q : s₂[idx + 1]? = some q := by
    rw [hs₂def, getElem?_linkNeighbor_other s₁ _ false (idx + 1) (by omega),
      hs₁def, List.getElem?_set_ne (by omega)]
    exact hq
  have hnn : ¬ ((idx : Int) + 1) < 0 := by omega
  have htoNat : ((idx : Int) + 1).toNat = idx + 1 := by omega
  refine ⟨?_, ?_, ?_⟩
  · intro hmc
    rw [linkNeighbor_skip_claimed s₂ _ true q hnn (by rw [htoNat]; exact hs₂q) hmc]
    exact hs₂q
  · intro hmc hbest
    rw [linkNeighbor_skip_noValue s₂ _ true q hnn (by rw [htoNat]; exact hs₂q)
      hmc hbest]
    exact hs₂q
  · intro u hmc hbest
    rw [linkNeighbor_write_forward s₂ _ q u hnn (by rw [htoNat]; exact hs₂q)
      hmc hbest]
    rw [htoNat]
    exact List.getElem?_set_self (lt_of_getElem?_some hs₂q)

/-- After the full pass, a manual row still carries its own value as
connector and a cleared fill line. -/
theorem connectorPass_manual_row (s : List ChartRow) (idx : Nat) (row : ChartRow)
    (v : JSNum) (hget : s[idx]? = some row)
    (hsrc : row.actualSource = some HistorySource.manual)
    (hval : row.actualReal = some v) :
    ∃ row', (connectorPass s)[idx]? = some row' ∧
      row'.manualConnector = some v ∧ row'.filledLineValue = none := by
  have hidx : idx < s.length := lt_of_getElem?_some hget
  have hsplit : List.range s.length =
      List.range (idx + 1) ++
        (List.range (s.length - (idx + 1))).map ((idx + 1) + ·) := by
    rw [← List.range_add]
    congr 1
    omega
  unfold connectorPass
  rw [hsplit, List.foldl_append, List.range_succ, List.foldl_append,
    List.foldl_cons, List.foldl_nil]
  set s₁ := (List.range idx).foldl connectorStep s with hs₁def
  have hrel : PassRel s s₁ :=
    foldl_rel PassRel connectorStep _ s (fun a b c => passRel_trans) (passRel_refl s)
      (fun t b _ => passRel_connectorStep t b)
  obtain ⟨hlen, hpt⟩ := hrel
  have hidx₁ : idx < s₁.length := hlen ▸ hidx
  have hget₁ : s₁[idx]? = some (s₁.get ⟨idx, hidx₁⟩) := by
    rw [List.getElem?_eq_getElem hidx₁]
    rfl
  have hrow : s.get ⟨idx, hidx⟩ = row := by
    have h := List.getElem?_eq_getElem hidx
    rw [h] at hget
    injection hget
  have hcore := (hpt idx hidx hidx₁).1
  rw [hrow] at hcore
  have hsrc₁ : (s₁.get ⟨idx, hidx₁⟩).actualSource = some HistorySource.manual :=
    hcore.2.2.2.2.1 ▸ hsrc
  have hval₁ : (s₁.get ⟨idx, hidx₁⟩).actualReal = some v :=
    hcore.2.1 ▸ hval
  have hstep := connectorStep_manual_self s₁ idx (s₁.get ⟨idx, hidx₁⟩) v hget₁
    hsrc₁ hval₁
  refine ⟨_, connectorSteps_keep _ _ idx ?_ _ hstep rfl, rfl, rfl⟩
  intro j hj
  rw [List.mem_map] at hj
  obtain ⟨x, _, hx⟩ := hj
  omega

/-- C2: in the manual-connector pass over the sorted rows, a `manual` row
with a non-null `actualValue` `v` ends up with `connectorValue = v` and a
cleared `fillLineValue`; one step of the pass at such a row sets an
unclaimed predecessor's / successor's `connectorValue` to its own first
non-null value in the order `actualValue`, `fillValue`, `forecastValue`
(skipping it when all three are null), clears only the successor's
`fillLineValue`, and leaves a neighbour that already holds a
`connectorValue` untouched. -/
theorem manual_connector_pass_spec :
    (∀ (data : ForecastResponse) (idx : Nat) (row : ChartRow) (v : JSNum),
      (mergedMapRows data)[idx]? = some row →
      row.actualSource = some HistorySource.manual →
      row.actualReal = some v →
      ∃ row', (mergeRows data)[idx]? = some row' ∧
        row'.manualConnector = some v ∧ row'.filledLineValue = none) ∧
    (∀ (s : List ChartRow) (idx : Nat) (row : ChartRow) (v : JSNum),
      s[idx]? = some row →
      row.actualSource = some HistorySource.manual →
      row.actualReal = some v →
      ((connectorStep s idx)[idx]? =
        some { row with manualConnector := some v, filledLineValue := none }) ∧
      (∀ (j : Nat) (p : ChartRow), idx = j + 1 → s[j]? = some p →
        (p.manualConnector.isSome = true → (connectorStep s idx)[j]? = some p) ∧
        (p.manualConnector = none → bestAvailable p = none →
          (connectorStep s idx)[j]? = some p) ∧
        (∀ u, p.manualConnector = none → bestAvailable p = some u →
          (connectorStep s idx)[j]? = some { p with manualConnector := some u })) ∧
      (∀ q : ChartRow, s[idx + 1]? = some q →
        (q.manualConnector.isSome = true → (connectorStep s idx)[idx + 1]? = some q) ∧
        (q.manualConnector = none → bestAvailable q = none →
          (connectorStep s idx)[idx + 1]? = some q) ∧
        (∀ u, q.manualConnector = none → bestAvailable q = some u →
          (connectorStep s idx)[idx + 1]? =
            some { q with manualConnector := some u, filledLineValue := none }))) := by
  constructor
  · intro data idx row v hget hsrc hval
    exact connectorPass_manual_row (mergedMapRows data) idx row v hget hsrc hval
  · intro s idx row v hget hsrc hval
    refine ⟨connectorStep_manual_self s idx row v hget hsrc hval, ?_, ?_⟩
    · intro j p hj hp
      subst hj
      exact connectorStep_pred_spec s j row p v hget hsrc hval hp
    · intro q hq
      exact connectorStep_succ_spec s idx row q v hget hsrc hval hq

/-- `sortRows` is the identity on an already-sorted merge map; used by the
concrete witnesses to evaluate `mergedMapRows` (the kernel cannot unfold
the well-founded recursion of `mergeSort` directly). -/
theorem mergedMapRows_of_sorted (data : ForecastResponse)
    (h : (buildRowsMap data).Pairwise (fun a b => decide (a.date ≤ b.date) = true)) :
    mergedMapRows data = buildRowsMap data := by
  unfold mergedMapRows sortRows
  exact List.mergeSort_of_sorted h

/-- Concrete data for the C2 witness: a manual correction between two
observed weeks. -/
def exC2 : ForecastResponse :=
  { history := [⟨1, JSNum.num 3, HistorySource.observed⟩,
      ⟨2, JSNum.num 6, HistorySource.manual⟩,
      ⟨3, JSNum.num 4, HistorySource.observed⟩]
    forecast := []
    pending_weeks := [] }

theorem manual_connector_pass_spec_witness :
    ((mergedMapRows exC2)[1]? =
      some ⟨2, some (JSNum.num 6), none, none, none,
        some HistorySource.manual, none, true, false, false, none⟩) ∧
    (∃ row', (mergeRows exC2)[1]? = some row' ∧
      row'.manualConnector = some (JSNum.num 6) ∧ row'.filledLineValue = none) :=
  ⟨by rw [mergedMapRows_of_sorted exC2 (by decide)]; decide,
    manual_connector_pass_spec.1 exC2 1
      ⟨2, some (JSNum.num 6), none, none, none,
        some HistorySource.manual, none, true, false, false, none⟩
      (JSNum.num 6)
      (by rw [mergedMapRows_of_sorted exC2 (by decide)]; decide)
      (by decide) (by decide)⟩

theorem applyForecast_actual_of_none (r : ChartRow) (p : ForecastPoint)
    (h : r.actualReal = none) :
    (applyForecast r p).actualReal = (match p.actual with
      | some a => if a.isFinite then some a else none
      | none => none) ∧
    (applyForecast r p).actualSource = (match p.actual with
      | some a => if a.isFinite then some HistorySource.observed else r.actualSource
      | none => r.actualSource) := by
  unfold applyForecast
  cases p.actual with
  | none => exact ⟨h, rfl⟩
  | some a =>
    dsimp only
    by_cases hfin : a.isFinite = true
    · rw [if_pos ⟨h, hfin⟩]
      simp [hfin]
    · rw [if_neg (by rintro ⟨-, hc⟩; exact hfin hc)]
      simp [hfin, h]

/-- C3: an observed- or manual-sourced history value always beats a
forecast-attached actual for the same date; a forecast-attached actual
backfills `actualValue` (with `actualSource = observed`) only when the row
has no history-supplied actual and the attached actual is present and
finite — in particular a `null` attached actual leaves `actualValue` null. -/
theorem observed_wins_over_forecast_actual (data : ForecastResponse)
    (hh : (data.history.map (fun p => p.ds)).Nodup)
    (hf : (data.forecast.map (fun p => p.ds)).Nodup) :
    (∀ (p : HistoryPoint) (q : ForecastPoint), p ∈ data.history →
      (p.source = HistorySource.observed ∨ p.source = HistorySource.manual) →
      q ∈ data.forecast → q.ds = p.ds →
      ∃ r, (mergeRows data).find? (fun r => decide (r.date = p.ds)) = some r ∧
        r.actualReal = some p.y ∧ r.actualSource = some p.source) ∧
    (∀ q : ForecastPoint, q ∈ data.forecast →
      (∀ p ∈ data.history, p.ds ≠ q.ds) →
      ∃ r, (mergeRows data).find? (fun r => decide (r.date = q.ds)) = some r ∧
        r.actualReal = (match q.actual with
          | some a => if a.isFinite then some a else none
          | none => none) ∧
        (∀ a, q.actual = some a → a.isFinite = true →
          r.actualSource = some HistorySource.observed)) := by
  constructor
  · intro p q hp hsrc hq hqd
    have h1 : data.history.filter (fun x => decide (x.ds = p.ds)) = [p] :=
      filter_ds_eq_singleton (fun x => x.ds) data.history p p.ds hh hp rfl
    have hrow := rowAt_eq data p.ds
    rw [h1] at hrow
    obtain ⟨hb1, hb2, -, -, -⟩ := applyHistory_actual_spec (initRow p.ds) p hsrc
    obtain ⟨hp1, hp2, -, -⟩ := foldl_applyPending_fields
      (data.pending_weeks.filter (fun x => decide (x.ds = p.ds)))
      (applyHistory (initRow p.ds) p)
    obtain ⟨hf1, hf2⟩ := foldl_applyForecast_actual_of_some
      (data.forecast.filter (fun x => decide (x.ds = p.ds)))
      ((data.pending_weeks.filter (fun x => decide (x.ds = p.ds))).foldl applyPending
        (applyHistory (initRow p.ds) p))
      p.y (hp1.trans hb1)
    have hrAt : rowAt data p.ds =
        some ((data.forecast.filter (fun x => decide (x.ds = p.ds))).foldl applyForecast
          ((data.pending_weeks.filter (fun x => decide (x.ds = p.ds))).foldl applyPending
            ((([p] : List HistoryPoint)).foldl applyHistory (initRow p.ds)))) := by
      rw [hrow]
      simp
    rw [List.foldl_cons, List.foldl_nil] at hrAt
    obtain ⟨r₂, hfind, hcore, -⟩ := find?_mergeRows data p.ds _ hrAt
    refine ⟨r₂, hfind, ?_, ?_⟩
    · rw [← hcore.2.1, hf1]
    · rw [← hcore.2.2.2.2.1, hf2, hp2, hb2]
  · intro q hq hnoh
    have h1 : data.history.filter (fun x => decide (x.ds = q.ds)) = [] :=
      filter_ds_eq_nil (fun x => x.ds) data.history q.ds hnoh
    have h3 : data.forecast.filter (fun x => decide (x.ds = q.ds)) = [q] :=
      filter_ds_eq_singleton (fun x => x.ds) data.forecast q q.ds hf hq rfl
    have hrow := rowAt_eq data q.ds
    rw [h1, h3] at hrow
    obtain ⟨hp1, hp2, -, -⟩ := foldl_applyPending_fields
      (data.pending_weeks.filter (fun x => decide (x.ds = q.ds))) (initRow q.ds)
    obtain ⟨hf1, hf2⟩ := applyForecast_actual_of_none
      ((data.pending_weeks.filter (fun x => decide (x.ds = q.ds))).foldl applyPending
        (initRow q.ds)) q (hp1.trans rfl)
    have hrAt : rowAt data q.ds =
        some (applyForecast
          ((data.pending_weeks.filter (fun x => decide (x.ds = q.ds))).foldl applyPending
            (initRow q.ds)) q) := by
      rw [hrow]
      simp
    obtain ⟨r₂, hfind, hcore, -⟩ := find?_mergeRows data q.ds _ hrAt
    refine ⟨r₂, hfind, ?_, ?_⟩
    · rw [← hcore.2.1, hf1]
    · intro a ha hafin
      rw [← hcore.2.2.2.2.1, hf2, ha]
      simp [hafin]

/-- Concrete data for the C3 witness: an observed week sharing its date with
a forecast point that carries an attached actual, plus the spec's
forecast-with-null-actual example. -/
def exC3 : ForecastResponse :=
  { history := [⟨1, JSNum.num 3, HistorySource.observed⟩,
      ⟨2, JSNum.num 5, HistorySource.observed⟩]
    forecast := [⟨1, JSNum.num 1, JSNum.num 8, some (JSNum.num 7)⟩,
      ⟨3, JSNum.num 2, JSNum.num 9, none⟩]
    pending_weeks := [] }

theorem observed_wins_over_forecast_actual_witness :
    (∃ r, (mergeRows exC3).find? (fun r => decide (r.date = 1)) = some r ∧
      r.actualReal = some (JSNum.num 3) ∧
      r.actualSource = some HistorySource.observed) ∧
    (∃ r, (mergeRows exC3).find? (fun r => decide (r.date = 3)) = some r ∧
      r.actualReal = none ∧
      (∀ a, (none : Option JSNum) = some a → a.isFinite = true →
        r.actualSource = some HistorySource.observed)) :=
  ⟨(observed_wins_over_forecast_actual exC3 (by decide) (by decide)).1
      ⟨1, JSNum.num 3, HistorySource.observed⟩
      ⟨1, JSNum.num 1, JSNum.num 8, some (JSNum.num 7)⟩
      (by decide) (by decide) (by decide) (by decide),
    (observed_wins_over_forecast_actual exC3 (by decide) (by decide)).2
      ⟨3, JSNum.num 2, JSNum.num 9, none⟩
      (by decide) (by decide)⟩

/-- C6: when a date is supplied both as a synthetic / seasonal_clone history
point and as a pending point, the merge map's row carries the pending
point's values (last write wins in the fixed order history before pending):
`fillValue = fillLineValue = predictedValue`, `fillSource = pending`,
`isPending = true`, so no synthetic/seasonal fill value survives on that
row.  In the final output (after the manual-connector pass) the same holds,
except that `fillLineValue` may additionally have been cleared when the row
is adjacent to a manual correction. -/
theorem pending_overrides_synthetic_fill (data : ForecastResponse)
    (p : HistoryPoint) (q : PendingWeek)
    (hp : p ∈ data.history)
    (hsrc : p.source = HistorySource.synthetic ∨
      p.source = HistorySource.seasonal_clone)
    (hq : q ∈ data.pending_weeks) (hqd : q.ds = p.ds)
    (hpnd : (data.pending_weeks.map (fun x => x.ds)).Nodup) :
    (∃ r, (mergedMapRows data).find? (fun r => decide (r.date = q.ds)) = some r ∧
      r.filledValue = some q.prediction ∧ r.filledLineValue = some q.prediction ∧
      r.filledSource = some FillSource.pending ∧ r.isPending = true) ∧
    (∃ r, (mergeRows data).find? (fun r => decide (r.date = q.ds)) = some r ∧
      r.filledValue = some q.prediction ∧ r.filledSource = some FillSource.pending ∧
      r.isPending = true ∧
      (r.filledLineValue = some q.prediction ∨ r.filledLineValue = none)) := by
  have h2 : data.pending_weeks.filter (fun x => decide (x.ds = q.ds)) = [q] :=
    filter_ds_eq_singleton (fun x => x.ds) data.pending_weeks q q.ds hpnd hq rfl
  have hrow := rowAt_eq data q.ds
  rw [h2] at hrow
  obtain ⟨-, -, -, -, hps1, hps2, hps3, hps4⟩ := applyPending_spec
    ((data.history.filter (fun x => decide (x.ds = q.ds))).foldl applyHistory
      (initRow q.ds)) q
  obtain ⟨hff1, hff2, hff3, hff4, -⟩ := foldl_applyForecast_fields
    (data.forecast.filter (fun x => decide (x.ds = q.ds)))
    (applyPending
      ((data.history.filter (fun x => decide (x.ds = q.ds))).foldl applyHistory
        (initRow q.ds)) q)
  have hrAt : rowAt data q.ds =
      some ((data.forecast.filter (fun x => decide (x.ds = q.ds))).foldl applyForecast
        (applyPending
          ((data.history.filter (fun x => decide (x.ds = q.ds))).foldl applyHistory
            (initRow q.ds)) q)) := by
    rw [hrow]
    simp
  constructor
  · refine ⟨_, by rw [find?_mergedMapRows data q.ds]; exact hrAt, ?_, ?_, ?_, ?_⟩
    · rw [hff1, hps1]
    · rw [hff2, hps2]
    · rw [hff3, hps3]
    · rw [hff4, hps4]
  · obtain ⟨r₂, hfind, hcore, hfill⟩ := find?_mergeRows data q.ds _ hrAt
    refine ⟨r₂, hfind, ?_, ?_, ?_, ?_⟩
    · rw [← hcore.2.2.1, hff1, hps1]
    · rw [← hcore.2.2.2.2.2.1, hff3, hps3]
    · rw [← hcore.2.2.2.2.2.2.2.2, hff4, hps4]
    · rcases hfill with hfill | hfill
      · exact Or.inl (by rw [hfill, hff2, hps2])
      · exact Or.inr hfill

/-- Concrete data for the C6 witness: a synthetic history point and a
pending point on the same date. -/
def exC6 : ForecastResponse :=
  { history := [⟨1, JSNum.num 2, HistorySource.synthetic⟩]
    forecast := []
    pending_weeks := [⟨1, JSNum.num 7⟩] }

theorem pending_overrides_synthetic_fill_witness :
    (∃ r, (mergedMapRows exC6).find? (fun r => decide (r.date = 1)) = some r ∧
      r.filledValue = some (JSNum.num 7) ∧ r.filledLineValue = some (JSNum.num 7) ∧
      r.filledSource = some FillSource.pending ∧ r.isPending = true) ∧
    (∃ r, (mergeRows exC6).find? (fun r => decide (r.date = 1)) = some r ∧
      r.filledValue = some (JSNum.num 7) ∧ r.filledSource = some FillSource.pending ∧
      r.isPending = true ∧
      (r.filledLineValue = some (JSNum.num 7) ∨ r.filledLineValue = none)) :=
  pending_overrides_synthetic_fill exC6
    ⟨1, JSNum.num 2, HistorySource.synthetic⟩ ⟨1, JSNum.num 7⟩
    (by decide) (by decide) (by decide) (by decide) (by decide)

/-- C10: a row whose date appears only in the forecast collection keeps
`hasHistory = false` and `isPending = false` through the merge — even when a
finite attached actual was backfilled — so it is never an anchor row and is
excluded from the anchor subset that frames the compact window. -/
theorem forecast_only_rows_not_anchored (data : ForecastResponse) (d : Date)
    (q : ForecastPoint) (hq : q ∈ data.forecast) (hqd : q.ds = d)
    (hh : ∀ p ∈ data.history, p.ds ≠ d)
    (hp : ∀ p ∈ data.pending_weeks, p.ds ≠ d) :
    ∃ r, (mergeRows data).find? (fun r => decide (r.date = d)) = some r ∧
      r.hasHistory = false ∧ r.isPending = false ∧ anchorRow r = false ∧
      r ∉ (mergeRows data).filter anchorRow := by
  have h1 : data.history.filter (fun x => decide (x.ds = d)) = [] :=
    filter_ds_eq_nil (fun x => x.ds) data.history d hh
  have h2 : data.pending_weeks.filter (fun x => decide (x.ds = d)) = [] :=
    filter_ds_eq_nil (fun x => x.ds) data.pending_weeks d hp
  have hqf : q ∈ data.forecast.filter (fun x => decide (x.ds = d)) :=
    List.mem_filter.mpr ⟨hq, by simp [hqd]⟩
  have h3 : ¬ (data.forecast.filter (fun x => decide (x.ds = d))).isEmpty = true := by
    rw [List.isEmpty_iff]
    exact List.ne_nil_of_mem hqf
  have hrow := rowAt_eq data d
  rw [h1, h2] at hrow
  obtain ⟨-, -, -, hfp, hfh⟩ := foldl_applyForecast_fields
    (data.forecast.filter (fun x => decide (x.ds = d))) (initRow d)
  have hrAt : rowAt data d =
      some ((data.forecast.filter (fun x => decide (x.ds = d))).foldl applyForecast
        (initRow d)) := by
    rw [hrow]
    simp only [List.isEmpty_nil, List.foldl_nil, Bool.true_and]
    rw [if_neg (by simpa using h3)]
  obtain ⟨r₂, hfind, hcore, -⟩ := find?_mergeRows data d _ hrAt
  have hH : r₂.hasHistory = false := by rw [← hcore.2.2.2.2.2.2.1, hfh]; rfl
  have hP : r₂.isPending = false := by rw [← hcore.2.2.2.2.2.2.2.2, hfp]; rfl
  have hA : anchorRow r₂ = false := by rw [anchorRow, hH, hP]; rfl
  refine ⟨r₂, hfind, hH, hP, hA, ?_⟩
  intro hmem
  have := (List.mem_filter.mp hmem).2
  rw [hA] at this
  exact Bool.noConfusion this

/-- Concrete data for the C10 witness: one observed week and one
forecast-only week carrying a finite attached actual. -/
def exC10 : ForecastResponse :=
  { history := [⟨1, JSNum.num 3, HistorySource.observed⟩]
    forecast := [⟨2, JSNum.num 1, JSNum.num 9, some (JSNum.num 4)⟩]
    pending_weeks := [] }

theorem forecast_only_rows_not_anchored_witness :
    ∃ r, (mergeRows exC10).find? (fun r => decide (r.date = 2)) = some r ∧
      r.hasHistory = false ∧ r.isPending = false ∧ anchorRow r = false ∧
      r ∉ (mergeRows exC10).filter anchorRow :=
  forecast_only_rows_not_anchored exC10 2
    ⟨2, JSNum.num 1, JSNum.num 9, some (JSNum.num 4)⟩
    (by decide) (by decide) (by decide) (by decide)

/-! ### Membership-style invariants of the merge map -/

theorem mem_mapUpsert (m : List ChartRow) (d : Date) (f : ChartRow → ChartRow)
    (x : ChartRow) (hx : x ∈ mapUpsert m d f) :
    x ∈ m ∨ ∃ r, (r ∈ m ∨ r = initRow d) ∧ x = f r := by
  induction m with
  | nil =>
    simp only [mapUpsert, List.mem_singleton] at hx
    exact Or.inr ⟨initRow d, Or.inr rfl, hx⟩
  | cons r rest ih =>
    by_cases hd : r.date = d
    · rw [show mapUpsert (r :: rest) d f = f r :: rest from by simp [mapUpsert, hd]]
        at hx
      rcases List.mem_cons.mp hx with hx | hx
      · exact Or.inr ⟨r, Or.inl (List.mem_cons_self r rest), hx⟩
      · exact Or.inl (List.mem_cons_of_mem r hx)
    · rw [show mapUpsert (r :: rest) d f = r :: mapUpsert rest d f from by
        simp [mapUpsert, hd]] at hx
      rcases List.mem_cons.mp hx with hx | hx
      · exact Or.inl (hx ▸ List.mem_cons_self r rest)
      · rcases ih hx with h | ⟨r', hr', hxr'⟩
        · exact Or.inl (List.mem_cons_of_mem r h)
        · refine Or.inr ⟨r', ?_, hxr'⟩
          rcases hr' with hr' | hr'
          · exact Or.inl (List.mem_cons_of_mem r hr')
          · exact Or.inr hr'

theorem foldPoints_mem_inv {β : Type} (ds : β → Date) (app : ChartRow → β → ChartRow)
    (P : ChartRow → Prop) :
    ∀ (l : List β) (m : List ChartRow),
      (∀ d, P (initRow d)) →
      (∀ r p, p ∈ l → P r → P (app r p)) →
      (∀ r ∈ m, P r) →
      ∀ r ∈ foldPoints ds app l m, P r := by
  intro l
  induction l with
  | nil =>
    intro m _ _ hm
    exact hm
  | cons p rest ih =>
    intro m hinit happ hm
    exact ih (mapUpsert m (ds p) (fun row => app row p)) hinit
      (fun r p' hp' hP => happ r p' (List.mem_cons_of_mem p hp') hP)
      (fun x hx => by
        rcases mem_mapUpsert m (ds p) (fun row => app row p) x hx with
          hxm | ⟨r, hr, hxr⟩
        · exact hm x hxm
        · subst hxr
          refine happ r p (List.mem_cons_self p rest) ?_
          rcases hr with hr | hr
          · exact hm r hr
          · rw [hr]
            exact hinit (ds p))

theorem applyHistory_fillInv (r : ChartRow) (p : HistoryPoint)
    (h : r.filledLineValue = r.filledValue) :
    (applyHistory r p).filledLineValue = (applyHistory r p).filledValue := by
  unfold applyHistory
  split
  · exact h
  · rfl

theorem applyForecast_fillInv (r : ChartRow) (p : ForecastPoint)
    (h : r.filledLineValue = r.filledValue) :
    (applyForecast r p).filledLineValue = (applyForecast r p).filledValue := by
  obtain ⟨h1, h2, -, -, -, -, -, -⟩ := applyForecast_spec r p
  rw [h1, h2]
  exact h

theorem fillLine_eq_fillValue_buildRowsMap (data : ForecastResponse) :
    ∀ r ∈ buildRowsMap data, r.filledLineValue = r.filledValue := by
  unfold buildRowsMap
  refine foldPoints_mem_inv _ _ _ _ _ (fun d => rfl)
    (fun r p _ hP => applyForecast_fillInv r p hP) ?_
  refine foldPoints_mem_inv _ _ _ _ _ (fun d => rfl)
    (fun r p _ _ => rfl) ?_
  refine foldPoints_mem_inv _ _ _ _ _ (fun d => rfl)
    (fun r p _ hP => applyHistory_fillInv r p hP) ?_
  intro r hr
  cases hr

/-- C9: invariant of the merge and the connector pass — at the merge-map
stage `fillLineValue` always equals `fillValue` (the two are written
together), in the final output `fillLineValue` is either null or equal to
`fillValue`, and the manual-connector pass never changes `fillValue` and
only ever keeps or clears `fillLineValue`. -/
theorem fill_line_value_invariant (data : ForecastResponse) :
    (∀ r ∈ mergedMapRows data, r.filledLineValue = r.filledValue) ∧
    (∀ r ∈ mergeRows data,
      r.filledLineValue = none ∨ r.filledLineValue = r.filledValue) ∧
    (∀ (rows : List ChartRow) (i : Nat) (ha : i < rows.length)
        (hb : i < (connectorPass rows).length),
      ((connectorPass rows).get ⟨i, hb⟩).filledValue =
        (rows.get ⟨i, ha⟩).filledValue ∧
      (((connectorPass rows).get ⟨i, hb⟩).filledLineValue =
          (rows.get ⟨i, ha⟩).filledLineValue ∨
        ((connectorPass rows).get ⟨i, hb⟩).filledLineValue = none)) := by
  have hmap : ∀ r ∈ mergedMapRows data, r.filledLineValue = r.filledValue := by
    intro r hr
    exact fillLine_eq_fillValue_buildRowsMap data r
      ((sortRows_perm (buildRowsMap data)).mem_iff.mp hr)
  refine ⟨hmap, ?_, ?_⟩
  · intro r hr
    unfold mergeRows at hr
    obtain ⟨i, hb, hget⟩ := List.mem_iff_getElem.mp hr
    obtain ⟨hlen, hrel⟩ := passRel_connectorPass (mergedMapRows data)
    have ha : i < (mergedMapRows data).length := hlen ▸ hb
    obtain ⟨hcore, hfill⟩ := hrel i ha hb
    have hinv := hmap _ (List.get_mem _ _ ha)
    have hgr : (connectorPass (mergedMapRows data)).get ⟨i, hb⟩ = r := by
      simpa using hget
    rcases hfill with hfill | hfill
    · right
      rw [← hgr, hfill, hinv, hcore.2.2.1]
    · left
      rw [← hgr]
      exact hfill
  · intro rows i ha hb
    obtain ⟨hlen, hrel⟩ := passRel_connectorPass rows
    obtain ⟨hcore, hfill⟩ := hrel i ha hb
    exact ⟨hcore.2.2.1.symm, hfill⟩

/-- Concrete data for the C9 witness: a synthetic fill next to a manual
correction (the pass clears the successor's fill line). -/
def exC9 : ForecastResponse :=
  { history := [⟨1, JSNum.num 5, HistorySource.manual⟩,
      ⟨2, JSNum.num 2, HistorySource.synthetic⟩]
    forecast := []
    pending_weeks := [] }

theorem fill_line_value_invariant_witness :
    (∀ r ∈ mergedMapRows exC9, r.filledLineValue = r.filledValue) ∧
    (∀ r ∈ mergeRows exC9,
      r.filledLineValue = none ∨ r.filledLineValue = r.filledValue) :=
  ⟨(fill_line_value_invariant exC9).1, (fill_line_value_invariant exC9).2.1⟩

/-- C8: `selectWindow` never returns an empty sequence on non-empty input:
with no anchor rows it returns all rows unchanged, and when the compact
concatenation is empty it falls back to the full row set. -/
theorem selectWindow_never_empty (rows : List ChartRow) (hw fw : Nat) :
    (rows ≠ [] → selectWindow rows hw fw ≠ []) ∧
    (rows.filter anchorRow = [] → selectWindow rows hw fw = rows) ∧
    (∀ (t : ChartRow) (ts : List ChartRow), rows.filter anchorRow = t :: ts →
      selectWindowCompact rows hw fw t ts = [] →
      selectWindow rows hw fw = rows) := by
  refine ⟨?_, ?_, ?_⟩
  · intro hne
    unfold selectWindow
    cases hT : rows.filter anchorRow with
    | nil => exact hne
    | cons t ts =>
      show (if (selectWindowCompact rows hw fw t ts).isEmpty then rows
        else selectWindowCompact rows hw fw t ts) ≠ []
      by_cases hc : (selectWindowCompact rows hw fw t ts).isEmpty
      · rw [if_pos hc]
        exact hne
      · rw [if_neg hc]
        intro hcon
        rw [hcon] at hc
        exact hc rfl
  · intro hT
    unfold selectWindow
    rw [hT]
  · intro t ts hT hcomp
    unfold selectWindow
    rw [hT]
    show (if (selectWindowCompact rows hw fw t ts).isEmpty then rows
      else selectWindowCompact rows hw fw t ts) = rows
    rw [hcomp]
    rfl

/-- Concrete row for the C8 witness: a single anchor row. -/
def exC8row : ChartRow :=
  ⟨1, some (JSNum.num 3), none, none, none, some HistorySource.observed, none,
    true, false, false, none⟩

theorem selectWindow_never_empty_witness :
    ([exC8row] ≠ [] → selectWindow [exC8row] 15 2 ≠ []) ∧
    (selectWindow [exC8row] 15 2 ≠ []) :=
  ⟨(selectWindow_never_empty [exC8row] 15 2).1,
    (selectWindow_never_empty [exC8row] 15 2).1 (by decide)⟩

/-! ### Sorted-row index helpers for the window proofs -/

theorem sorted_date_le_of_le (l : List ChartRow)
    (hs : l.Pairwise (fun a b => a.date < b.date))
    (i j : Nat) (hi : i < l.length) (hj : j < l.length) (hij : i ≤ j) :
    (l.get ⟨i, hi⟩).date ≤ (l.get ⟨j, hj⟩).date := by
  rcases Nat.lt_or_ge i j with h | h
  · have := List.pairwise_iff_getElem.mp hs i j hi hj h
    simpa [List.get_eq_getElem] using le_of_lt this
  · have hij' : i = j := le_antisymm hij h
    subst hij'
    exact le_refl _

theorem date_le_getLast_of_sorted (l : List ChartRow) (hne : l ≠ [])
    (hs : l.Pairwise (fun a b => a.date < b.date)) (x : ChartRow) (hx : x ∈ l) :
    x.date ≤ (l.getLast hne).date := by
  obtain ⟨i, hi, hxi⟩ := List.mem_iff_getElem.mp hx
  have hlast := List.getLast_eq_getElem l hne
  have hlt : l.length - 1 < l.length := by
    cases l with
    | nil => exact absurd rfl hne
    | cons a as => simp
  have := sorted_date_le_of_le l hs i (l.length - 1) hi hlt (by omega)
  rw [hlast]
  rw [← hxi]
  simpa [List.get_eq_getElem] using this

/-- The `forecastTail` accumulator scan is the first `forecastWindow`
elements, in order, of the rows strictly after the window end that carry a
forecast value. -/
theorem foldl_forecastTail (rows : List ChartRow) (wEnd : Date) (fw : Nat) :
    ∀ (c : Nat) (xs : List ChartRow),
      (rows.foldl (fun (acc : Nat × List ChartRow) r =>
        if wEnd < r.date ∧ r.forecastValue.isSome ∧ acc.1 < fw then
          (acc.1 + 1, acc.2 ++ [r]) else acc) (c, xs)).2 =
      xs ++ (rows.filter (fun r =>
        decide (wEnd < r.date) && r.forecastValue.isSome)).take (fw - c) := by
  induction rows with
  | nil =>
    intro c xs
    simp
  | cons r rest ih =>
    intro c xs
    rw [List.foldl_cons]
    by_cases h1 : wEnd < r.date
    · by_cases h2 : r.forecastValue.isSome = true
      · by_cases h3 : c < fw
        · rw [if_pos ⟨h1, h2, h3⟩, ih]
          have hfc : fw - c = (fw - (c + 1)) + 1 := by omega
          simp [List.filter_cons, h1, h2, hfc, List.append_assoc]
        · rw [if_neg (by rintro ⟨-, -, hc⟩; exact h3 hc), ih]
          have hfc : fw - c = 0 := by omega
          have hfc1 : fw - (c + 1) = 0 := by omega
          simp [hfc, hfc1]
      · rw [if_neg (by rintro ⟨-, hc, -⟩; exact h2 hc), ih]
        simp [List.filter_cons, h1, h2]
    · rw [if_neg (by rintro ⟨hc, -, -⟩; exact h1 hc), ih]
      simp [List.filter_cons, h1]

/-- Normal form of the compact candidate under the contract
`historyWindow ≥ 1`: a date-span filter over all rows followed by the first
`forecastWindow` forecast-carrying rows strictly after the window end. -/
theorem selectWindowCompact_eq (rows : List ChartRow) (hw fw : Nat)
    (t : ChartRow) (ts : List ChartRow) (hhw : 1 ≤ hw)
    (hlen : hw ≤ (t :: ts).length) :
    selectWindowCompact rows hw fw t ts =
      rows.filter (fun r =>
        decide (((t :: ts).getD ((t :: ts).length - hw) t).date ≤ r.date) &&
        decide (r.date ≤ ((t :: ts).getLast (List.cons_ne_nil t ts)).date)) ++
      (rows.filter (fun r =>
        decide (((t :: ts).getLast (List.cons_ne_nil t ts)).date < r.date) &&
        r.forecastValue.isSome)).take fw := by
  have hws : (if (t :: ts).length > hw
        then ((t :: ts).getD ((t :: ts).length - hw) t).date
        else t.date) = ((t :: ts).getD ((t :: ts).length - hw) t).date := by
    by_cases h : (t :: ts).length > hw
    · rw [if_pos h]
    · rw [if_neg h]
      have hlen' : (t :: ts).length = hw := le_antisymm (not_lt.mp h) hlen
      rw [hlen', Nat.sub_self]
      rfl
  unfold selectWindowCompact
  dsimp only
  rw [hws, foldl_forecastTail rows _ fw 0 [], Nat.sub_zero, List.nil_append]

/-- C4: on a merged row sequence with at least `historyWindow` anchor rows,
`selectWindow` returns exactly the rows whose dates lie in the span of the
most recent `historyWindow` anchor rows (ending at the last anchor date)
followed by at most `forecastWindow` rows, in ascending date order, taken
from the rows strictly after the last anchor date that carry a forecast
value; the anchor rows of the result are exactly those most recent
`historyWindow` anchors. -/
theorem selectWindow_compact_window (rows : List ChartRow) (hw fw : Nat)
    (t : ChartRow) (ts : List ChartRow)
    (hT : rows.filter anchorRow = t :: ts)
    (hsorted : rows.Pairwise (fun a b => a.date < b.date))
    (hhw : 1 ≤ hw) (hlen : hw ≤ (t :: ts).length) :
    selectWindow rows hw fw =
      rows.filter (fun r =>
        decide (((t :: ts).getD ((t :: ts).length - hw) t).date ≤ r.date) &&
        decide (r.date ≤ ((t :: ts).getLast (List.cons_ne_nil t ts)).date)) ++
      (rows.filter (fun r =>
        decide (((t :: ts).getLast (List.cons_ne_nil t ts)).date < r.date) &&
        r.forecastValue.isSome)).take fw ∧
    (selectWindow rows hw fw).filter anchorRow =
      (t :: ts).drop ((t :: ts).length - hw) ∧
    ((selectWindow rows hw fw).filter anchorRow).length = hw ∧
    ((rows.filter (fun r =>
        decide (((t :: ts).getLast (List.cons_ne_nil t ts)).date < r.date) &&
        r.forecastValue.isSome)).take fw).length ≤ fw := by
  have hTs : (t :: ts).Pairwise (fun a b => a.date < b.date) := by
    rw [← hT]
    exact hsorted.filter anchorRow
  have hkT : (t :: ts).length - hw < (t :: ts).length := by
    simp only [List.length_cons]
    omega
  have hne : (t :: ts) ≠ [] := List.cons_ne_nil t ts
  have hlastlt : (t :: ts).length - 1 < (t :: ts).length := by
    simp only [List.length_cons]
    omega
  have hsub : (t :: ts).length - hw ≤ (t :: ts).length - 1 := by
    simp only [List.length_cons] at hlen ⊢
    omega
  have hgetD : (t :: ts).getD ((t :: ts).length - hw) t =
      (t :: ts).get ⟨(t :: ts).length - hw, hkT⟩ := by
    rw [List.getD_eq_getElem?_getD, List.getElem?_eq_getElem hkT]
    rfl
  have hlastget : (t :: ts).getLast hne =
      (t :: ts).get ⟨(t :: ts).length - 1, hlastlt⟩ := by
    rw [List.getLast_eq_getElem]
    rfl
  have hwle : ((t :: ts).getD ((t :: ts).length - hw) t).date ≤
      ((t :: ts).getLast hne).date := by
    rw [hgetD, hlastget]
    exact sorted_date_le_of_le _ hTs ((t :: ts).length - hw) ((t :: ts).length - 1)
      hkT hlastlt hsub
  have hcompact := selectWindowCompact_eq rows hw fw t ts hhw hlen
  have hlastT : (t :: ts).getLast hne ∈ (t :: ts) := List.getLast_mem hne
  have hlastRows : (t :: ts).getLast hne ∈ rows :=
    List.mem_of_mem_filter (p := anchorRow) (by rw [hT]; exact hlastT)
  have hlastBase : (t :: ts).getLast hne ∈ rows.filter (fun r =>
      decide (((t :: ts).getD ((t :: ts).length - hw) t).date ≤ r.date) &&
      decide (r.date ≤ ((t :: ts).getLast (List.cons_ne_nil t ts)).date)) := by
    refine List.mem_filter.mpr ⟨hlastRows, ?_⟩
    simp only [Bool.and_eq_true, decide_eq_true_eq]
    exact ⟨hwle, le_refl _⟩
  have hcompne : selectWindowCompact rows hw fw t ts ≠ [] := by
    rw [hcompact]
    intro hcon
    obtain ⟨h1, -⟩ := List.append_eq_nil.mp hcon
    rw [h1] at hlastBase
    cases hlastBase
  have hsw : selectWindow rows hw fw = selectWindowCompact rows hw fw t ts := by
    unfold selectWindow
    rw [hT]
    show (if (selectWindowCompact rows hw fw t ts).isEmpty then rows
      else selectWindowCompact rows hw fw t ts) = _
    rw [if_neg (by rw [List.isEmpty_iff]; exact hcompne)]
  have hresult := hsw.trans hcompact
  have htail_anchor : ((rows.filter (fun r =>
      decide (((t :: ts).getLast (List.cons_ne_nil t ts)).date < r.date) &&
      r.forecastValue.isSome)).take fw).filter anchorRow = [] := by
    rw [List.filter_eq_nil_iff]
    intro x hx hax
    have hx1 : x ∈ rows.filter (fun r =>
        decide (((t :: ts).getLast (List.cons_ne_nil t ts)).date < r.date) &&
        r.forecastValue.isSome) := List.mem_of_mem_take hx
    obtain ⟨hxr, hxp⟩ := List.mem_filter.mp hx1
    simp only [Bool.and_eq_true, decide_eq_true_eq] at hxp
    have hxT : x ∈ (t :: ts) := by
      rw [← hT]
      exact List.mem_filter.mpr ⟨hxr, hax⟩
    have hxle := date_le_getLast_of_sorted _ hne hTs x hxT
    exact absurd hxp.1 (not_lt.mpr hxle)
  have hbase_anchor : (rows.filter (fun r =>
      decide (((t :: ts).getD ((t :: ts).length - hw) t).date ≤ r.date) &&
      decide (r.date ≤ ((t :: ts).getLast (List.cons_ne_nil t ts)).date))).filter
        anchorRow =
      (t :: ts).filter (fun r =>
        decide (((t :: ts).getD ((t :: ts).length - hw) t).date ≤ r.date) &&
        decide (r.date ≤ ((t :: ts).getLast (List.cons_ne_nil t ts)).date)) := by
    rw [List.filter_filter]
    have hTfilter : (t :: ts).filter (fun r =>
        decide (((t :: ts).getD ((t :: ts).length - hw) t).date ≤ r.date) &&
        decide (r.date ≤ ((t :: ts).getLast (List.cons_ne_nil t ts)).date)) =
        (rows.filter anchorRow).filter (fun r =>
        decide (((t :: ts).getD ((t :: ts).length - hw) t).date ≤ r.date) &&
        decide (r.date ≤ ((t :: ts).getLast (List.cons_ne_nil t ts)).date)) := by
      rw [hT]
    rw [hTfilter, List.filter_filter]
    exact List.filter_congr (fun x _ => by rw [Bool.and_comm])
  have hTsplit : (t :: ts).filter (fun r =>
      decide (((t :: ts).getD ((t :: ts).length - hw) t).date ≤ r.date) &&
      decide (r.date ≤ ((t :: ts).getLast (List.cons_ne_nil t ts)).date)) =
      (t :: ts).drop ((t :: ts).length - hw) := by
    set P : ChartRow → Bool := fun r =>
      decide (((t :: ts).getD ((t :: ts).length - hw) t).date ≤ r.date) &&
      decide (r.date ≤ ((t :: ts).getLast (List.cons_ne_nil t ts)).date) with hP
    have hPx : ∀ x : ChartRow, P x = true ↔
        (((t :: ts).getD ((t :: ts).length - hw) t).date ≤ x.date ∧
          x.date ≤ ((t :: ts).getLast (List.cons_ne_nil t ts)).date) := by
      intro x
      rw [hP]
      simp
    have hdrop : ((t :: ts).drop ((t :: ts).length - hw)).filter P =
        (t :: ts).drop ((t :: ts).length - hw) := by
      rw [List.filter_eq_self]
      intro x hx
      obtain ⟨j, hj, hxj⟩ := List.mem_iff_getElem.mp hx
      have hjlen : (t :: ts).length - hw + j < (t :: ts).length := by
        simp only [List.length_drop] at hj
        omega
      have hxeq : x = (t :: ts).get ⟨(t :: ts).length - hw + j, hjlen⟩ := by
        rw [← hxj]
        simp [List.getElem_drop, List.get_eq_getElem]
      have hge := sorted_date_le_of_le _ hTs ((t :: ts).length - hw)
        ((t :: ts).length - hw + j) hkT hjlen (by omega)
      have hle := sorted_date_le_of_le _ hTs ((t :: ts).length - hw + j)
        ((t :: ts).length - 1) hjlen hlastlt (by omega)
      rw [hPx x]
      rw [hgetD, hxeq, hlastget]
      exact ⟨hge, hle⟩
    have htake : ((t :: ts).take ((t :: ts).length - hw)).filter P = [] := by
      rw [List.filter_eq_nil_iff]
      intro x hx
      obtain ⟨i, hi, hxi⟩ := List.mem_iff_getElem.mp hx
      have hik : i < (t :: ts).length - hw := by
        have h := hi
        simp only [List.length_take] at h
        omega
      have hilen : i < (t :: ts).length := by omega
      have hxeq : x = (t :: ts).get ⟨i, hilen⟩ := by
        rw [← hxi]
        simp [List.getElem_take, List.get_eq_getElem]
      have hstrict := List.pairwise_iff_getElem.mp hTs i ((t :: ts).length - hw)
        hilen hkT hik
      rw [hPx x]
      rintro ⟨hge, -⟩
      rw [hgetD, hxeq] at hge
      simp only [List.get_eq_getElem] at hge hstrict
      exact absurd hstrict (not_lt.mpr hge)
    calc (t :: ts).filter P
        = ((t :: ts).take ((t :: ts).length - hw) ++
            (t :: ts).drop ((t :: ts).length - hw)).filter P := by
          rw [List.take_append_drop]
      _ = (t :: ts).drop ((t :: ts).length - hw) := by
          rw [List.filter_append, htake, hdrop, List.nil_append]
  have hanchor : (selectWindow rows hw fw).filter anchorRow =
      (t :: ts).drop ((t :: ts).length - hw) := by
    rw [hresult, List.filter_append, htail_anchor, List.append_nil,
      hbase_anchor, hTsplit]
  refine ⟨hresult, hanchor, ?_, List.length_take_le fw _⟩
  rw [hanchor, List.length_drop]
  omega

/-- Anchor row `i` for the C4 witness timeline. -/
def exC4anchor (i : Nat) : ChartRow :=
  ⟨(i : Int), some (JSNum.num 1), none, none, none, some HistorySource.observed,
    none, true, false, false, none⟩

/-- Forecast-only row `i` for the C4 witness timeline. -/
def exC4forecast (i : Nat) : ChartRow :=
  ⟨(i : Int), none, none, none, some (JSNum.num 9), none, none, false, false,
    false, none⟩

/-- A 30-anchor timeline followed by three forecast-only rows. -/
def exC4rows : List ChartRow :=
  (List.range 30).map exC4anchor ++
    [exC4forecast 30, exC4forecast 31, exC4forecast 32]

theorem selectWindow_compact_window_witness :
    ((selectWindow exC4rows 15 2).filter anchorRow).length = 15 ∧
    ((exC4rows.filter (fun r =>
      decide (((exC4anchor 0 :: (List.range 29).map (fun i => exC4anchor (i + 1))).getLast
        (List.cons_ne_nil _ _)).date < r.date) &&
      r.forecastValue.isSome)).take 2).length ≤ 2 :=
  ⟨(selectWindow_compact_window exC4rows 15 2 (exC4anchor 0)
      ((List.range 29).map (fun i => exC4anchor (i + 1)))
      (by decide) (by decide) (by decide) (by decide)).2.2.1,
    (selectWindow_compact_window exC4rows 15 2 (exC4anchor 0)
      ((List.range 29).map (fun i => exC4anchor (i + 1)))
      (by decide) (by decide) (by decide) (by decide)).2.2.2⟩

/-! ### Finiteness of the chart channels -/

/-- A nullable channel holds no non-finite number. -/
def finiteOpt (o : Option JSNum) : Bool :=
  o.all JSNum.isFinite

/-- Every numeric chart channel of a row is null or finite. -/
def channelsFinite (r : ChartRow) : Bool :=
  finiteOpt r.actualReal && finiteOpt r.filledValue && finiteOpt r.filledLineValue &&
    finiteOpt r.forecastValue && finiteOpt r.manualConnector

/-- All numeric inputs of the merge are finite (the boundary guarantees
this for the transformed response). -/
def FiniteInputs (data : ForecastResponse) : Prop :=
  (∀ p ∈ data.history, p.y.isFinite = true) ∧
  (∀ p ∈ data.pending_weeks, p.prediction.isFinite = true) ∧
  (∀ p ∈ data.forecast, p.y_pred.isFinite = true)

theorem toNumeric_finite (v : JSValue) : finiteOpt (toNumeric v) = true := by
  cases v with
  | num n =>
    by_cases h : n.isFinite = true <;> simp [toNumeric, finiteOpt, Option.all, h]
  | str p =>
    by_cases h : p.isFinite = true <;> simp [toNumeric, finiteOpt, Option.all, h]
  | nullv => rfl
  | undef => rfl
  | other p => rfl

theorem toNumeric_getD_finite (v : JSValue) :
    ((toNumeric v).getD (JSNum.num 0)).isFinite = true := by
  have h := toNumeric_finite v
  cases hv : toNumeric v with
  | none => rfl
  | some x =>
    rw [hv] at h
    simpa [finiteOpt, Option.all] using h

theorem transformResponse_finite (raw : RawResponse) :
    FiniteInputs (transformResponse raw) ∧
    (∀ p ∈ (transformResponse raw).forecast, finiteOpt p.actual = true) := by
  refine ⟨⟨?_, ?_, ?_⟩, ?_⟩
  · intro p hp
    obtain ⟨item, -, hitem⟩ := List.mem_map.mp hp
    rw [← hitem]
    exact toNumeric_getD_finite item.cases
  · intro p hp
    obtain ⟨item, -, hitem⟩ := List.mem_map.mp hp
    rw [← hitem]
    exact toNumeric_getD_finite item.prediction
  · intro p hp
    obtain ⟨item, -, hitem⟩ := List.mem_map.mp hp
    rw [← hitem]
    exact toNumeric_getD_finite item.prediction
  · intro p hp
    obtain ⟨item, -, hitem⟩ := List.mem_map.mp hp
    rw [← hitem]
    exact toNumeric_finite item.actual

theorem channelsFinite_iff (r : ChartRow) :
    channelsFinite r = true ↔
      (finiteOpt r.actualReal = true ∧ finiteOpt r.filledValue = true ∧
       finiteOpt r.filledLineValue = true ∧ finiteOpt r.forecastValue = true ∧
       finiteOpt r.manualConnector = true) := by
  unfold channelsFinite
  simp [Bool.and_eq_true, and_assoc]

theorem finiteOpt_some_iff (x : JSNum) :
    finiteOpt (some x) = true ↔ x.isFinite = true := by
  simp [finiteOpt, Option.all]

theorem applyHistory_channelsFinite (r : ChartRow) (p : HistoryPoint)
    (hy : p.y.isFinite = true) (hr : channelsFinite r = true) :
    channelsFinite (applyHistory r p) = true := by
  rw [channelsFinite_iff] at hr ⊢
  obtain ⟨h1, h2, h3, h4, h5⟩ := hr
  unfold applyHistory
  split
  · exact ⟨(finiteOpt_some_iff p.y).mpr hy, h2, h3, h4, h5⟩
  · exact ⟨h1, (finiteOpt_some_iff p.y).mpr hy, (finiteOpt_some_iff p.y).mpr hy,
      h4, h5⟩

theorem applyPending_channelsFinite (r : ChartRow) (p : PendingWeek)
    (hy : p.prediction.isFinite = true) (hr : channelsFinite r = true) :
    channelsFinite (applyPending r p) = true := by
  rw [channelsFinite_iff] at hr ⊢
  obtain ⟨h1, h2, h3, h4, h5⟩ := hr
  exact ⟨h1, (finiteOpt_some_iff p.prediction).mpr hy,
    (finiteOpt_some_iff p.prediction).mpr hy, h4, h5⟩

theorem applyForecast_channelsFinite (r : ChartRow) (p : ForecastPoint)
    (hy : p.y_pred.isFinite = true) (hr : channelsFinite r = true) :
    channelsFinite (applyForecast r p) = true := by
  rw [channelsFinite_iff] at hr ⊢
  obtain ⟨h1, h2, h3, h4, h5⟩ := hr
  unfold applyForecast
  cases p.actual with
  | none => exact ⟨h1, h2, h3, (finiteOpt_some_iff p.y_pred).mpr hy, h5⟩
  | some a =>
    dsimp only
    split
    · rename_i hcond
      exact ⟨(finiteOpt_some_iff a).mpr hcond.2, h2, h3,
        (finiteOpt_some_iff p.y_pred).mpr hy, h5⟩
    · exact ⟨h1, h2, h3, (finiteOpt_some_iff p.y_pred).mpr hy, h5⟩

theorem buildRowsMap_channelsFinite (data : ForecastResponse)
    (hfin : FiniteInputs data) :
    ∀ r ∈ buildRowsMap data, channelsFinite r = true := by
  obtain ⟨hH, hP, hF⟩ := hfin
  unfold buildRowsMap
  refine foldPoints_mem_inv _ _ _ _ _ (fun d => rfl)
    (fun r p hp hr => applyForecast_channelsFinite r p (hF p hp) hr) ?_
  refine foldPoints_mem_inv _ _ _ _ _ (fun d => rfl)
    (fun r p hp hr => applyPending_channelsFinite r p (hP p hp) hr) ?_
  refine foldPoints_mem_inv _ _ _ _ _ (fun d => rfl)
    (fun r p hp hr => applyHistory_channelsFinite r p (hH p hp) hr) ?_
  intro r hr
  cases hr

theorem bestAvailable_mem_channel (r : ChartRow) (v : JSNum)
    (h : bestAvailable r = some v) :
    r.actualReal = some v ∨ r.filledValue = some v ∨ r.forecastValue = some v := by
  unfold bestAvailable at h
  cases ha : r.actualReal with
  | some x =>
    rw [ha] at h
    simp at h
    exact Or.inl (congrArg some h)
  | none =>
    rw [ha] at h
    cases hf : r.filledValue with
    | some x =>
      rw [hf] at h
      simp at h
      exact Or.inr (Or.inl (congrArg some h))
    | none =>
      rw [hf] at h
      simp at h
      exact Or.inr (Or.inr h)

theorem bestAvailable_finite (r : ChartRow) (v : JSNum)
    (hr : channelsFinite r = true) (h : bestAvailable r = some v) :
    v.isFinite = true := by
  rw [channelsFinite_iff] at hr
  obtain ⟨h1, h2, -, h4, -⟩ := hr
  rcases bestAvailable_mem_channel r v h with hc | hc | hc
  · rw [hc] at h1
    exact (finiteOpt_some_iff v).mp h1
  · rw [hc] at h2
    exact (finiteOpt_some_iff v).mp h2
  · rw [hc] at h4
    exact (finiteOpt_some_iff v).mp h4

theorem linkNeighbor_channelsFinite (rows : List ChartRow) (n : Int) (b : Bool)
    (h : ∀ r ∈ rows, channelsFinite r = true) :
    ∀ r ∈ linkNeighbor rows n b, channelsFinite r = true := by
  unfold linkNeighbor
  split
  · exact h
  · cases hget : rows[n.toNat]? with
    | none => exact h
    | some neighbor =>
      simp only
      split
      · exact h
      · cases hbest : bestAvailable neighbor with
        | none => exact h
        | some value =>
          simp only
          have hnb : channelsFinite neighbor = true :=
            h neighbor (List.getElem?_mem hget)
          have hval : value.isFinite = true :=
            bestAvailable_finite neighbor value hnb hbest
          split
          · intro r hr
            rcases List.mem_or_eq_of_mem_set hr with hr | hr
            · exact h r hr
            · subst hr
              rw [channelsFinite_iff] at hnb ⊢
              obtain ⟨h1, h2, h3, h4, -⟩ := hnb
              exact ⟨h1, h2, rfl, h4, (finiteOpt_some_iff value).mpr hval⟩
          · intro r hr
            rcases List.mem_or_eq_of_mem_set hr with hr | hr
            · exact h r hr
            · subst hr
              rw [channelsFinite_iff] at hnb ⊢
              obtain ⟨h1, h2, h3, h4, -⟩ := hnb
              exact ⟨h1, h2, h3, h4, (finiteOpt_some_iff value).mpr hval⟩

theorem connectorStep_channelsFinite (rows : List ChartRow) (idx : Nat)
    (h : ∀ r ∈ rows, channelsFinite r = true) :
    ∀ r ∈ connectorStep rows idx, channelsFinite r = true := by
  unfold connectorStep
  cases hget : rows[idx]? with
  | none => exact h
  | some row =>
    simp only
    split
    · refine linkNeighbor_channelsFinite _ _ _
        (linkNeighbor_channelsFinite _ _ _ ?_)
      intro r hr
      rcases List.mem_or_eq_of_mem_set hr with hr | hr
      · exact h r hr
      · subst hr
        have hrow : channelsFinite row = true := h row (List.getElem?_mem hget)
        rw [channelsFinite_iff] at hrow ⊢
        obtain ⟨h1, h2, h3, h4, -⟩ := hrow
        exact ⟨h1, h2, rfl, h4, h1⟩
    · exact h

theorem mergeRows_channelsFinite (data : ForecastResponse)
    (hfin : FiniteInputs data) :
    ∀ r ∈ mergeRows data, channelsFinite r = true := by
  have hmap := buildRowsMap_channelsFinite data hfin
  have hsorted : ∀ r ∈ mergedMapRows data, channelsFinite r = true := by
    intro r hr
    exact hmap r ((sortRows_perm (buildRowsMap data)).mem_iff.mp hr)
  unfold mergeRows connectorPass
  exact foldl_inv (fun s => ∀ r ∈ s, channelsFinite r = true) connectorStep _ _
    (fun t b ht => connectorStep_channelsFinite t b ht) hsorted

/-- C5: the boundary sanitizer only ever produces null or finite numbers
(`toNumeric`), the transformed collections entering the merge carry only
finite numeric fields (attached actuals are null or finite), and no NaN or
infinity ever reaches any chart channel of the merged output. -/
theorem no_nan_in_chart_channels :
    (∀ v : JSValue, finiteOpt (toNumeric v) = true) ∧
    (∀ raw : RawResponse,
      (∀ p ∈ (transformResponse raw).history, p.y.isFinite = true) ∧
      (∀ p ∈ (transformResponse raw).pending_weeks, p.prediction.isFinite = true) ∧
      (∀ p ∈ (transformResponse raw).forecast, p.y_pred.isFinite = true ∧
        finiteOpt p.actual = true)) ∧
    (∀ (raw : RawResponse) (r : ChartRow),
      r ∈ mergeRows (transformResponse raw) → channelsFinite r = true) := by
  refine ⟨toNumeric_finite, ?_, ?_⟩
  · intro raw
    obtain ⟨⟨h1, h2, h3⟩, h4⟩ := transformResponse_finite raw
    exact ⟨h1, h2, fun p hp => ⟨h3 p hp, h4 p hp⟩⟩
  · intro raw r hr
    exact mergeRows_channelsFinite (transformResponse raw)
      (transformResponse_finite raw).1 r hr

/-- `mergeRows` on a merge map that is already date-sorted; used by concrete
witnesses (the kernel cannot unfold `mergeSort`). -/
theorem mergeRows_of_sorted (data : ForecastResponse)
    (h : (buildRowsMap data).Pairwise (fun a b => decide (a.date ≤ b.date) = true)) :
    mergeRows data = connectorPass (buildRowsMap data) := by
  unfold mergeRows
  rw [mergedMapRows_of_sorted data h]

/-- Raw response for the C5 witness: a NaN case count, a non-numeric
prediction string, an infinite attached actual, and a non-numeric pending
prediction. -/
def exC5raw : RawResponse :=
  { history := some [⟨1, JSValue.num JSNum.nan, none⟩]
    forecast := some [⟨3, JSValue.nullv, JSValue.str JSNum.nan, JSValue.num JSNum.inf⟩]
    pending_weeks := some [⟨2, JSValue.other (JSNum.num 1)⟩] }

theorem no_nan_in_chart_channels_witness :
    finiteOpt (toNumeric (JSValue.num JSNum.nan)) = true ∧
    (∀ p ∈ (transformResponse exC5raw).history, p.y.isFinite = true) ∧
    channelsFinite
      ⟨1, some (JSNum.num 0), none, none, none, some HistorySource.observed,
        none, true, false, false, none⟩ = true :=
  ⟨no_nan_in_chart_channels.1 (JSValue.num JSNum.nan),
    (no_nan_in_chart_channels.2.1 exC5raw).1,
    no_nan_in_chart_channels.2.2 exC5raw
      ⟨1, some (JSNum.num 0), none, none, none, some HistorySource.observed,
        none, true, false, false, none⟩
      (by rw [mergeRows_of_sorted _ (by decide)]; decide)⟩

/-! ### Order independence of the merge -/

theorem find?_tail_none_of_pairwise (a : ChartRow) (t : List ChartRow)
    (h : (a :: t).Pairwise (fun x y => x.date < y.date)) :
    t.find? (fun r => decide (r.date = a.date)) = none := by
  rw [List.find?_eq_none]
  intro x hx
  have hlt := (List.pairwise_cons.mp h).1 x hx
  simp only [decide_eq_true_eq]
  intro hc
  rw [hc] at hlt
  exact lt_irrefl _ hlt

theorem eq_of_pairwise_lt_find?_eq (l₁ : List ChartRow) :
    ∀ l₂ : List ChartRow,
      l₁.Pairwise (fun a b => a.date < b.date) →
      l₂.Pairwise (fun a b => a.date < b.date) →
      (∀ k, l₁.find? (fun r => decide (r.date = k)) =
        l₂.find? (fun r => decide (r.date = k))) →
      l₁ = l₂ := by
  induction l₁ with
  | nil =>
    intro l₂ h₁ h₂ hf
    cases l₂ with
    | nil => rfl
    | cons b t₂ =>
      have h := hf b.date
      simp [List.find?_cons] at h
  | cons a t₁ ih =>
    intro l₂ h₁ h₂ hf
    cases l₂ with
    | nil =>
      have h := hf a.date
      simp [List.find?_cons] at h
    | cons b t₂ =>
      have hab : a = b := by
        by_cases hba : b.date = a.date
        · have h := hf a.date
          rw [List.find?_cons_of_pos _ (by simp),
            List.find?_cons_of_pos _ (by simp [hba])] at h
          injection h
        · have ha := hf a.date
          rw [List.find?_cons_of_pos _ (by simp),
            List.find?_cons_of_neg _ (by simp only [decide_eq_true_eq]; exact hba)]
            at ha
          have hat₂ : a ∈ t₂ := List.mem_of_find?_eq_some ha.symm
          have hb_lt_a : b.date < a.date := (List.pairwise_cons.mp h₂).1 a hat₂
          have hb := hf b.date
          rw [List.find?_cons_of_neg _ (by
              simp only [decide_eq_true_eq]
              exact fun hc => hba hc.symm),
            List.find?_cons_of_pos _ (by simp)] at hb
          have hbt₁ : b ∈ t₁ := List.mem_of_find?_eq_some hb
          have ha_lt_b : a.date < b.date := (List.pairwise_cons.mp h₁).1 b hbt₁
          exact absurd (lt_trans ha_lt_b hb_lt_a) (lt_irrefl _)
      subst hab
      refine congrArg (a :: ·) (ih t₂ (List.pairwise_cons.mp h₁).2
        (List.pairwise_cons.mp h₂).2 ?_)
      intro k
      by_cases hk : a.date = k
      · subst hk
        rw [find?_tail_none_of_pairwise a t₁ h₁,
          find?_tail_none_of_pairwise a t₂ h₂]
      · have h := hf k
        rw [List.find?_cons_of_neg _ (by simp only [decide_eq_true_eq]; exact hk),
          List.find?_cons_of_neg _ (by simp only [decide_eq_true_eq]; exact hk)]
          at h
        exact h

theorem filter_perm_eq {β : Type} (ds : β → Date) (l₁ l₂ : List β) (k : Date)
    (hp : l₁.Perm l₂) (hnd : (l₁.map ds).Nodup) :
    l₁.filter (fun x => decide (ds x = k)) =
      l₂.filter (fun x => decide (ds x = k)) := by
  have hperm : (l₁.filter (fun x => decide (ds x = k))).Perm
      (l₂.filter (fun x => decide (ds x = k))) := hp.filter _
  cases hfil : l₁.filter (fun x => decide (ds x = k)) with
  | nil =>
    rw [hfil] at hperm
    exact (hperm.symm.eq_nil).symm
  | cons x rest =>
    cases rest with
    | nil =>
      rw [hfil] at hperm
      exact (List.perm_singleton.mp hperm.symm).symm
    | cons y rest2 =>
      exfalso
      have hsub : ((x :: y :: rest2).map ds).Sublist (l₁.map ds) := by
        rw [← hfil]
        exact (List.filter_sublist l₁).map ds
      have hnodup := hsub.nodup hnd
      have hx : ds x = k := by
        have : x ∈ l₁.filter (fun x => decide (ds x = k)) := by
          rw [hfil]
          exact List.mem_cons_self x _
        simpa using (List.mem_filter.mp this).2
      have hy : ds y = k := by
        have : y ∈ l₁.filter (fun x => decide (ds x = k)) := by
          rw [hfil]
          exact List.mem_cons_of_mem x (List.mem_cons_self y rest2)
        simpa using (List.mem_filter.mp this).2
      rw [List.map_cons, List.map_cons, List.nodup_cons] at hnodup
      exact hnodup.1 (by rw [hx, hy]; exact List.mem_cons_self k _)

theorem rowAt_congr (d₁ d₂ : ForecastResponse)
    (hh : d₁.history.Perm d₂.history)
    (hp : d₁.pending_weeks.Perm d₂.pending_weeks)
    (hf : d₁.forecast.Perm d₂.forecast)
    (hhn : (d₁.history.map (fun p => p.ds)).Nodup)
    (hpn : (d₁.pending_weeks.map (fun p => p.ds)).Nodup)
    (hfn : (d₁.forecast.map (fun p => p.ds)).Nodup) (k : Date) :
    rowAt d₁ k = rowAt d₂ k := by
  rw [rowAt_eq, rowAt_eq,
    filter_perm_eq (fun p => p.ds) d₁.history d₂.history k hh hhn,
    filter_perm_eq (fun p => p.ds) d₁.pending_weeks d₂.pending_weeks k hp hpn,
    filter_perm_eq (fun p => p.ds) d₁.forecast d₂.forecast k hf hfn]

/-- C7: the merge-and-window computation is a pure function of the input
collections viewed as sets of dated points — permuting the order of the
elements inside each collection (dates distinct within each collection)
yields an identical merged result and an identical compact window, and
re-running on the same inputs trivially reproduces the same output. -/
theorem merge_order_independent (d₁ d₂ : ForecastResponse) (hw fw : Nat)
    (hh : d₁.history.Perm d₂.history)
    (hp : d₁.pending_weeks.Perm d₂.pending_weeks)
    (hf : d₁.forecast.Perm d₂.forecast)
    (hhn : (d₁.history.map (fun p => p.ds)).Nodup)
    (hpn : (d₁.pending_weeks.map (fun p => p.ds)).Nodup)
    (hfn : (d₁.forecast.map (fun p => p.ds)).Nodup) :
    mergeRows d₁ = mergeRows d₂ ∧
    selectWindow (mergeRows d₁) hw fw = selectWindow (mergeRows d₂) hw fw := by
  have hmm : mergedMapRows d₁ = mergedMapRows d₂ := by
    refine eq_of_pairwise_lt_find?_eq _ _ (pairwise_lt_mergedMapRows d₁)
      (pairwise_lt_mergedMapRows d₂) ?_
    intro k
    rw [find?_mergedMapRows, find?_mergedMapRows]
    exact rowAt_congr d₁ d₂ hh hp hf hhn hpn hfn k
  have hm : mergeRows d₁ = mergeRows d₂ := by
    unfold mergeRows
    rw [hmm]
  exact ⟨hm, by rw [hm]⟩

/-- Input collections for the C7 witness. -/
def exC7a : ForecastResponse :=
  { history := [⟨1, JSNum.num 3, HistorySource.observed⟩,
      ⟨2, JSNum.num 6, HistorySource.manual⟩]
    forecast := [⟨3, JSNum.num 1, JSNum.num 9, none⟩,
      ⟨4, JSNum.num 2, JSNum.num 11, none⟩]
    pending_weeks := [] }

/-- The same collections as `exC7a` with each array reordered. -/
def exC7b : ForecastResponse :=
  { history := [⟨2, JSNum.num 6, HistorySource.manual⟩,
      ⟨1, JSNum.num 3, HistorySource.observed⟩]
    forecast := [⟨4, JSNum.num 2, JSNum.num 11, none⟩,
      ⟨3, JSNum.num 1, JSNum.num 9, none⟩]
    pending_weeks := [] }

theorem merge_order_independent_witness :
    mergeRows exC7a = mergeRows exC7b ∧
    selectWindow (mergeRows exC7a) 15 2 = selectWindow (mergeRows exC7b) 15 2 :=
  merge_order_independent exC7a exC7b 15 2 (by decide) (by decide) (by decide)
    (by decide) (by decide) (by decide)

end DengueForecast
